import Mathlib

/-!
Verification of the spatial matching and binary encoding engine of
`cmd/features/main.go` (snowhfx).

The Go code is shallowly embedded over exact rational arithmetic:

* `float64` values are modelled as `ℚ`.  The transcendental library
  functions used by the code (`math.Sqrt`, `math.Atan2`, `math.Cos`,
  `math.Pi`) are modelled by computable rational idealizations
  (`sqrtQ`, `atan2Q`, `cosQ`, `piQ`); `sqrtQ` is exact on rational
  squares, `atan2Q` is exact on the coordinate axes and maps opposite
  directions to angles that differ by exactly `piQ`, preserving the
  direction-agnostic bearing-delta semantics of `angleDelta`.
* `math.Inf(1)` sentinels become `⊤ : WithTop ℚ`.
* Go `uint8` is `Fin 256`, Go `int` is `ℤ` (or `ℕ` for list indices),
  Go float→int truncation (`int(x)`) is `truncQ`, `math.Round` is
  `roundGo`, and the `int32(...)` conversion (implementation-defined
  on overflow in Go) is modelled as two's-complement wrap.
* Maps iterated by key lookup only (`spatialIndex.cells`,
  `segmentsMap`) are modelled extensionally as functions from keys to
  the list of values that the construction loops append, in insertion
  order; maps with `EqualFold`/lookup access (`titleNormalizer`,
  `travelwayTitles`) are association lists.
* `geojson.Properties` (`props.MustString`/`MustInt` on a fixed set of
  keys) becomes a record of those fields with the `MustX` defaults.
* The encoder's byte stream is a list of tokens: one token per written
  byte, except `float64` fields (the two base coordinates), each
  modelled as a single opaque rational-carrying token, since their
  IEEE-754 bit layout is orthogonal to every claim.
-/

/-! ### Rational idealizations of float64 library functions -/

/-- Model of `math.Pi`: the exact rational value of the `float64`
constant `math.Pi` (7074237752028440 × 2⁻⁵¹). -/
def piQ : ℚ := 7074237752028440 / 2251799813685248

/-- Model of `math.MaxFloat64`, the sentinel used by the bounding-box
folds: the exact rational value (2⁵³ − 1) × 2⁹⁷¹, written out as a
literal so that it evaluates in one step. -/
def maxFloatQ : ℚ := 179769313486231570814527423731704356798070567525844996598917476803157260780028538760589558632766878171540458953514382464234321326889464182768467546703537516986049910576551282076245490090389328944075868508455133942304583236903222948165808559332123348274797826204144723168738177180919299881250404026184124858368

/-- Integer square root (⌊√n⌋) by the digit-pair method, structurally
recursive on a fuel argument so that it reduces inside the kernel
(`Nat.sqrt` uses well-founded recursion and does not). -/
def isqrtFuel : ℕ → ℕ → ℕ
  | 0, _ => 0
  | fuel + 1, n =>
    if n = 0 then 0
    else
      let r := 2 * isqrtFuel fuel (n / 4)
      if (r + 1) * (r + 1) ≤ n then r + 1 else r

/-- Integer square root: `isqrt (k^2) = k` and `isqrt` is the floor of
the real square root (the fuel `n` always suffices since the recursion
depth is logarithmic). -/
def isqrt (n : ℕ) : ℕ := isqrtFuel n n

/-- Model of `math.Sqrt` over ℚ: exact on squares of rationals
(`sqrtQ (q^2) = |q|`), a floor-style approximation elsewhere.  No
theorem below depends on its values off squares. -/
def sqrtQ (q : ℚ) : ℚ :=
  if q ≤ 0 then 0 else (isqrt (q.num.toNat * q.den) : ℚ) / (q.den : ℚ)

/-- Model of `math.Abs`. -/
def absQ (q : ℚ) : ℚ := if q < 0 then -q else q

/-- Model of `math.Min` (no NaN or signed zero in the rational model). -/
def minQ (a b : ℚ) : ℚ := if a ≤ b then a else b

/-- Model of `math.Max`. -/
def maxQ (a b : ℚ) : ℚ := if b ≤ a then a else b

/-- The floor of a rational, via floor division of the numerator. -/
def floorQ (q : ℚ) : ℤ := Int.fdiv q.num (q.den : ℤ)

/-- Go float→int conversion `int(x)`: truncation toward zero. -/
def truncQ (q : ℚ) : ℤ := Int.tdiv q.num (q.den : ℤ)

/-- Model of `math.Mod x y` (result has the sign of `x`). -/
def goMod (x y : ℚ) : ℚ := x - (truncQ (x / y) : ℚ) * y

/-- Model of `math.Round`: round half away from zero. -/
def roundGo (q : ℚ) : ℤ :=
  if 0 ≤ q then floorQ (q + 1 / 2) else -floorQ (-q + 1 / 2)

/-- Model of `math.Atan2 y x` over ℚ, via the scaled pseudo-angle:
exact on the four axis directions (`atan2Q 0 x = 0` for `x > 0`,
`= piQ` for `x < 0`, `atan2Q y 0 = ±piQ/2`), quadrant-correct and
continuous elsewhere, with range `(-piQ, piQ]`, and such that opposite
directions differ by exactly `piQ` — which is what the
direction-agnostic `angleDelta` consumes. -/
def atan2Q (y x : ℚ) : ℚ :=
  if x = 0 ∧ y = 0 then 0
  else
    let a := y / (absQ x + absQ y)
    let t := if 0 ≤ x then a else if 0 ≤ y then 2 - a else -2 - a
    t * (piQ / 2)

/-- Model of `math.Cos` over ℚ: degree-6 Taylor polynomial, exact at 0
(the only accuracy any theorem below relies on) and accurate to
~1e-11 on the metro-scale latitudes the program feeds it. -/
def cosQ (x : ℚ) : ℚ :=
  1 - x * x / 2 + x * x * x * x / 24 - x * x * x * x * x * x / 720

/-- `orb.EarthRadius` (meters). -/
def earthRadius : ℚ := 6378137

def deg2rad (deg : ℚ) : ℚ := deg * piQ / 180

def rad2deg (rad : ℚ) : ℚ := rad * 180 / piQ

/-! ### Geometry primitives (`pointXY`, distances, bearings) -/

/-- A geographic coordinate: `orb.Point` with `[0] = lon`, `[1] = lat`. -/
structure GeoPoint where
  lon : ℚ
  lat : ℚ
deriving DecidableEq, Repr, Inhabited

/-- Planar point in meters (`pointXY` in the source). -/
structure PointXY where
  x : ℚ
  y : ℚ
deriving DecidableEq, Repr, Inhabited

def distancePoint (a b : PointXY) : ℚ :=
  sqrtQ ((a.x - b.x) * (a.x - b.x) + (a.y - b.y) * (a.y - b.y))

def pointSegmentDistance (p a b : PointXY) : ℚ :=
  let vx := b.x - a.x
  let vy := b.y - a.y
  let wx := p.x - a.x
  let wy := p.y - a.y
  let c1 := vx * wx + vy * wy
  if c1 ≤ 0 then distancePoint p a
  else
    let c2 := vx * vx + vy * vy
    if c2 ≤ c1 then distancePoint p b
    else
      let t := c1 / c2
      distancePoint p ⟨a.x + t * vx, a.y + t * vy⟩

def orientation (a b c : PointXY) : ℚ :=
  (b.y - a.y) * (c.x - b.x) - (b.x - a.x) * (c.y - b.y)

def onSegment (a b c : PointXY) : Bool :=
  decide (minQ a.x c.x ≤ b.x) && decide (b.x ≤ maxQ a.x c.x) &&
  decide (minQ a.y c.y ≤ b.y) && decide (b.y ≤ maxQ a.y c.y)

def segmentsIntersect (a1 a2 b1 b2 : PointXY) : Bool :=
  let o1 := orientation a1 a2 b1
  let o2 := orientation a1 a2 b2
  let o3 := orientation b1 b2 a1
  let o4 := orientation b1 b2 a2
  if o1 * o2 < 0 ∧ o3 * o4 < 0 then true
  else if o1 = 0 ∧ onSegment a1 b1 a2 then true
  else if o2 = 0 ∧ onSegment a1 b2 a2 then true
  else if o3 = 0 ∧ onSegment b1 a1 b2 then true
  else if o4 = 0 ∧ onSegment b1 a2 b2 then true
  else false

def segmentDistance (a1 a2 b1 b2 : PointXY) : ℚ :=
  if segmentsIntersect a1 a2 b1 b2 then 0
  else
    minQ (minQ (pointSegmentDistance a1 b1 b2) (pointSegmentDistance a2 b1 b2))
         (minQ (pointSegmentDistance b1 a1 a2) (pointSegmentDistance b2 a1 a2))

/-- `segmentAngle`: `(float64, bool)` becomes `Option ℚ` (`none` for a
zero-length segment). -/
def segmentAngle (a b : PointXY) : Option ℚ :=
  let dx := b.x - a.x
  let dy := b.y - a.y
  if dx = 0 ∧ dy = 0 then none else some (atan2Q dy dx)

/-- `overallLineAngle`: bearing from the first point to the last point
distinct from it (walking backward), `none` if the line has fewer than
two points or no distinct point. -/
def overallLineAngle (points : List PointXY) : Option ℚ :=
  if points.length < 2 then none
  else
    let start := points.getD 0 default
    let e := points.getD (points.length - 1) default
    let e :=
      if e = start then
        (((points.take (points.length - 1)).reverse.find? fun p => p != start).getD start)
      else e
    segmentAngle start e

/-- `angleDelta`: direction-agnostic minimal angular difference. -/
def angleDelta (a b : ℚ) : ℚ :=
  let diff := goMod (absQ (a - b)) (2 * piQ)
  let diff := if piQ < diff then 2 * piQ - diff else diff
  let alt := absQ (diff - piQ)
  if alt < diff then alt else diff

/-! ### Line distances (`minLineDistance`, `minLineDistanceWithAngle`) -/

def minPointLineDistance (point : PointXY) (line : List PointXY) : WithTop ℚ :=
  (List.range (line.length - 1)).foldl
    (fun acc i =>
      let d := pointSegmentDistance point (line.getD i default) (line.getD (i + 1) default)
      if (d : WithTop ℚ) < acc then (d : WithTop ℚ) else acc)
    ⊤

def minLineDistance (a b : List PointXY) : WithTop ℚ :=
  if a.length = 0 ∨ b.length = 0 then ⊤
  else if a.length = 1 ∧ b.length = 1 then
    (distancePoint (a.getD 0 default) (b.getD 0 default) : WithTop ℚ)
  else if a.length = 1 then minPointLineDistance (a.getD 0 default) b
  else if b.length = 1 then minPointLineDistance (b.getD 0 default) a
  else
    (List.range (a.length - 1)).foldl
      (fun acc i =>
        (List.range (b.length - 1)).foldl
          (fun acc2 j =>
            let d := segmentDistance (a.getD i default) (a.getD (i + 1) default)
              (b.getD j default) (b.getD (j + 1) default)
            if (d : WithTop ℚ) < acc2 then (d : WithTop ℚ) else acc2)
          acc)
      ⊤

/-- `minLineDistanceWithAngle`: minimum segment-pair distance, where a
pair is skipped (`continue`) when either segment has an undefined
bearing or the bearing delta exceeds `maxAngleRad`. -/
def minLineDistanceWithAngle (a b : List PointXY) (maxAngleRad : ℚ) : WithTop ℚ :=
  if maxAngleRad ≤ 0 then minLineDistance a b
  else if a.length < 2 ∨ b.length < 2 then minLineDistance a b
  else
    (List.range (a.length - 1)).foldl
      (fun acc i =>
        match segmentAngle (a.getD i default) (a.getD (i + 1) default) with
        | none => acc
        | some angleA =>
          (List.range (b.length - 1)).foldl
            (fun acc2 j =>
              match segmentAngle (b.getD j default) (b.getD (j + 1) default) with
              | none => acc2
              | some angleB =>
                if maxAngleRad < angleDelta angleA angleB then acc2
                else
                  let d := segmentDistance (a.getD i default) (a.getD (i + 1) default)
                    (b.getD j default) (b.getD (j + 1) default)
                  if (d : WithTop ℚ) < acc2 then (d : WithTop ℚ) else acc2)
            acc)
      ⊤

/-- Specification-side definition (for comparison with
`minLineDistanceWithAngle`): the distances of the segment pairs the
spec calls eligible — both bearings defined and the bearing delta
within `maxAngleRad`. -/
def eligiblePairDists (a b : List PointXY) (maxAngleRad : ℚ) : List ℚ :=
  (List.range (a.length - 1)).flatMap fun i =>
    (List.range (b.length - 1)).filterMap fun j =>
      match segmentAngle (a.getD i default) (a.getD (i + 1) default),
            segmentAngle (b.getD j default) (b.getD (j + 1) default) with
      | some angleA, some angleB =>
        if maxAngleRad < angleDelta angleA angleB then none
        else some (segmentDistance (a.getD i default) (a.getD (i + 1) default)
          (b.getD j default) (b.getD (j + 1) default))
      | _, _ => none

/-! ### Projector and spatial index -/

structure Projector where
  lat0Rad : ℚ
deriving DecidableEq, Repr, Inhabited

def Projector.toXY (p : Projector) (point : GeoPoint) : PointXY :=
  ⟨deg2rad point.lon * cosQ p.lat0Rad * earthRadius, deg2rad point.lat * earthRadius⟩

def Projector.lineToXY (p : Projector) (line : List GeoPoint) : List PointXY :=
  line.map p.toXY

def metersToDegreesLat (meters : ℚ) : ℚ := rad2deg (meters / earthRadius)

def metersToDegreesLon (meters lat0Rad : ℚ) : ℚ :=
  rad2deg (meters / (earthRadius * cosQ lat0Rad))

/-- `lineBounds`: (minLon, minLat, maxLon, maxLat) with ±MaxFloat64
sentinels, as in the source. -/
def lineBounds (line : List GeoPoint) : ℚ × ℚ × ℚ × ℚ :=
  line.foldl
    (fun acc c =>
      (if c.lon < acc.1 then c.lon else acc.1,
       if c.lat < acc.2.1 then c.lat else acc.2.1,
       if acc.2.2.1 < c.lon then c.lon else acc.2.2.1,
       if acc.2.2.2 < c.lat then c.lat else acc.2.2.2))
    (maxFloatQ, maxFloatQ, -maxFloatQ, -maxFloatQ)

/-- `indexedLine`.  The pair `(overallAngleRad, hasOverallAngle)` is the
option `overallAngle`; the bbox/xy/bearing fields are filled in by
`newSpatialIndex`. -/
structure IndexedLine where
  coords : List GeoPoint
  xy : List PointXY := []
  minLon : ℚ := 0
  minLat : ℚ := 0
  maxLon : ℚ := 0
  maxLat : ℚ := 0
  priority : Fin 256 := 0
  objectID : ℤ := 0
  overallAngle : Option ℚ := none
deriving DecidableEq, Repr, Inhabited

/-- An inclusive integer range as a list (empty when `hi < lo`). -/
def intRange (lo hi : ℤ) : List ℤ :=
  (List.range (hi + 1 - lo).toNat).map fun k : ℕ => lo + (k : ℤ)

/-- `spatialIndex`.  The cell map `cells map[cellKey][]int` is modelled
extensionally as an association list over the grid keys `(row, col)`:
for each key it holds exactly the list of line indices that the
construction loops append, in insertion order (ascending line index);
a missing key and an empty list both denote the empty candidate set,
as for a Go map whose zero value is `nil`. -/
structure SpatialIndex where
  lines : List IndexedLine
  minLon : ℚ
  minLat : ℚ
  maxLon : ℚ
  maxLat : ℚ
  cols : ℤ
  rows : ℤ
  cells : List ((ℤ × ℤ) × List ℕ)
  projector : Projector
deriving DecidableEq, Repr

instance : Inhabited SpatialIndex :=
  ⟨⟨[], 0, 0, 0, 0, 0, 0, [], ⟨0⟩⟩⟩

/-- Map read `idx.cells[cellKey{row, col}]` (`nil` when absent). -/
def SpatialIndex.cellList (idx : SpatialIndex) (row col : ℤ) : List ℕ :=
  (idx.cells.lookup (row, col)).getD []

/-- The clamped cell range of one line's bounding box, as computed by
the construction loop of `newSpatialIndex` (lower clamp at 0 for the
minima, upper clamp at `cols-1`/`rows-1` for the maxima). -/
def lineCellRange (minLon minLat cellWidth cellHeight : ℚ) (cols rows : ℤ)
    (l : IndexedLine) : ℤ × ℤ × ℤ × ℤ :=
  let colMin := truncQ ((l.minLon - minLon) / cellWidth)
  let colMax := truncQ ((l.maxLon - minLon) / cellWidth)
  let rowMin := truncQ ((l.minLat - minLat) / cellHeight)
  let rowMax := truncQ ((l.maxLat - minLat) / cellHeight)
  let colMin := if colMin < 0 then 0 else colMin
  let rowMin := if rowMin < 0 then 0 else rowMin
  let colMax := if cols ≤ colMax then cols - 1 else colMax
  let rowMax := if rows ≤ rowMax then rows - 1 else rowMax
  (colMin, colMax, rowMin, rowMax)

/-- `newSpatialIndex`.  Fails on an empty line set; otherwise computes
per-line bounds, the union bounds, the projector at the mean latitude,
planar coordinates and overall bearings, and the cell map. -/
def newSpatialIndex (lines : List IndexedLine) (cols rows : ℤ) :
    Except String SpatialIndex :=
  if lines.isEmpty then .error "no lines to index"
  else
    let lines := lines.map fun l =>
      let (bMinLon, bMinLat, bMaxLon, bMaxLat) := lineBounds l.coords
      { l with minLon := bMinLon, minLat := bMinLat, maxLon := bMaxLon, maxLat := bMaxLat }
    let globalMinLon := lines.foldl (fun acc l => if l.minLon < acc then l.minLon else acc) maxFloatQ
    let globalMinLat := lines.foldl (fun acc l => if l.minLat < acc then l.minLat else acc) maxFloatQ
    let globalMaxLon := lines.foldl (fun acc l => if acc < l.maxLon then l.maxLon else acc) (-maxFloatQ)
    let globalMaxLat := lines.foldl (fun acc l => if acc < l.maxLat then l.maxLat else acc) (-maxFloatQ)
    let lat0 := (globalMinLat + globalMaxLat) / 2
    let proj : Projector := ⟨deg2rad lat0⟩
    let lines := lines.map fun l =>
      let xy := proj.lineToXY l.coords
      { l with xy := xy, overallAngle := overallLineAngle xy }
    let cellWidth := (globalMaxLon - globalMinLon) / (cols : ℚ)
    let cellHeight := (globalMaxLat - globalMinLat) / (rows : ℚ)
    .ok
      { lines := lines
        minLon := globalMinLon, minLat := globalMinLat
        maxLon := globalMaxLon, maxLat := globalMaxLat
        cols := cols, rows := rows
        cells :=
          (intRange 0 (rows - 1)).flatMap fun row =>
            (intRange 0 (cols - 1)).map fun col =>
              ((row, col),
                (List.range lines.length).filter fun i =>
                  let r := lineCellRange globalMinLon globalMinLat cellWidth cellHeight
                    cols rows (lines.getD i default)
                  decide (r.1 ≤ col ∧ col ≤ r.2.1 ∧ r.2.2.1 ≤ row ∧ row ≤ r.2.2.2))
        projector := proj }

/-- `spatialIndex.candidates`: union of the cell lists over the clamped
query cell range, deduplicated keeping first occurrences (the `seen`
set), row-major order. -/
def SpatialIndex.candidates (idx : SpatialIndex) (minLon minLat maxLon maxLat : ℚ) :
    List ℕ :=
  let cellWidth := (idx.maxLon - idx.minLon) / (idx.cols : ℚ)
  let cellHeight := (idx.maxLat - idx.minLat) / (idx.rows : ℚ)
  let colMin := truncQ ((minLon - idx.minLon) / cellWidth)
  let colMax := truncQ ((maxLon - idx.minLon) / cellWidth)
  let rowMin := truncQ ((minLat - idx.minLat) / cellHeight)
  let rowMax := truncQ ((maxLat - idx.minLat) / cellHeight)
  let colMin := if colMin < 0 then 0 else colMin
  let rowMin := if rowMin < 0 then 0 else rowMin
  let colMax := if idx.cols ≤ colMax then idx.cols - 1 else colMax
  let rowMax := if idx.rows ≤ rowMax then idx.rows - 1 else rowMax
  (intRange rowMin rowMax).foldl
    (fun out row =>
      (intRange colMin colMax).foldl
        (fun out col =>
          (idx.cellList row col).foldl
            (fun out i => if i ∈ out then out else out ++ [i])
            out)
        out)
    []

/-! ### `nearestMatch` -/

structure NearestMatchResult where
  priority : Fin 256 := 0
  objectID : ℤ := 0
  distance : WithTop ℚ := (0 : ℚ)
  hasMatch : Bool := false
deriving DecidableEq, Repr, Inhabited

/-- The query bounding box expanded by `maxDistanceMeters` (degrees). -/
def nmExpandedBounds (idx : SpatialIndex) (line : List GeoPoint)
    (maxDistanceMeters : ℚ) : ℚ × ℚ × ℚ × ℚ :=
  let (minLon, minLat, maxLon, maxLat) := lineBounds line
  (minLon - metersToDegreesLon maxDistanceMeters idx.projector.lat0Rad,
   minLat - metersToDegreesLat maxDistanceMeters,
   maxLon + metersToDegreesLon maxDistanceMeters idx.projector.lat0Rad,
   maxLat + metersToDegreesLat maxDistanceMeters)

/-- The candidate index list fetched by `nearestMatch`. -/
def nearestCandidates (idx : SpatialIndex) (line : List GeoPoint)
    (maxDistanceMeters : ℚ) : List ℕ :=
  let b := nmExpandedBounds idx line maxDistanceMeters
  idx.candidates b.1 b.2.1 b.2.2.1 b.2.2.2

/-- The overall-bearing pre-filter, exactly the `continue` condition
shared by both passes. -/
def overallSkip (maxOverallAngleRad : ℚ) (lineOverall : Option ℚ)
    (c : IndexedLine) : Bool :=
  match lineOverall, c.overallAngle with
  | some la, some ca =>
    decide (0 < maxOverallAngleRad) && decide (maxOverallAngleRad < angleDelta la ca)
  | _, _ => false

/-- The distance `nearestMatch` computes for candidate `i`. -/
def candDist (idx : SpatialIndex) (lineXY : List PointXY) (maxAngleRad : ℚ)
    (i : ℕ) : WithTop ℚ :=
  minLineDistanceWithAngle lineXY (idx.lines.getD i default).xy maxAngleRad

/-- Pass 1: the global minimum distance over eligible candidates. -/
def pass1Min (idx : SpatialIndex) (cands : List ℕ) (lineXY : List PointXY)
    (lineOverall : Option ℚ) (maxAngleRad maxOverallAngleRad : ℚ) : WithTop ℚ :=
  cands.foldl
    (fun acc i =>
      if overallSkip maxOverallAngleRad lineOverall (idx.lines.getD i default) then acc
      else
        let d := candDist idx lineXY maxAngleRad i
        if d < acc then d else acc)
    ⊤

structure Pass2State where
  bestDistance : WithTop ℚ := ⊤
  bestPriority : Fin 256 := 255
  bestObjectID : ℤ := 0
deriving DecidableEq, Repr, Inhabited

/-- One iteration of the pass-2 loop body. -/
def pass2Step (idx : SpatialIndex) (lineXY : List PointXY) (lineOverall : Option ℚ)
    (maxAngleRad maxOverallAngleRad : ℚ) (cutoff : WithTop ℚ)
    (s : Pass2State) (i : ℕ) : Pass2State :=
  let c := idx.lines.getD i default
  if overallSkip maxOverallAngleRad lineOverall c then s
  else
    let d := candDist idx lineXY maxAngleRad i
    if cutoff < d then s
    else if c.priority < s.bestPriority ∨ (c.priority = s.bestPriority ∧ d < s.bestDistance) then
      ⟨d, c.priority, c.objectID⟩
    else s

/-- Pass 2: the priority-biased selection over the same candidates. -/
def pass2Best (idx : SpatialIndex) (cands : List ℕ) (lineXY : List PointXY)
    (lineOverall : Option ℚ) (maxAngleRad maxOverallAngleRad : ℚ)
    (cutoff : WithTop ℚ) : Pass2State :=
  cands.foldl (pass2Step idx lineXY lineOverall maxAngleRad maxOverallAngleRad cutoff)
    ⟨⊤, 255, 0⟩

/-- The pass-2 cutoff: pass-1 minimum plus the clamped priority bias. -/
def nmCutoff (idx : SpatialIndex) (line : List GeoPoint)
    (maxDistanceMeters maxAngleRad maxOverallAngleRad priorityBiasMeters : ℚ) :
    WithTop ℚ :=
  let lineXY := idx.projector.lineToXY line
  pass1Min idx (nearestCandidates idx line maxDistanceMeters) lineXY
      (overallLineAngle lineXY) maxAngleRad maxOverallAngleRad
    + ((if priorityBiasMeters < 0 then 0 else priorityBiasMeters : ℚ) : WithTop ℚ)

/-- `spatialIndex.nearestMatch`. -/
def SpatialIndex.nearestMatch (idx : SpatialIndex) (line : List GeoPoint)
    (maxDistanceMeters maxAngleRad maxOverallAngleRad priorityBiasMeters : ℚ) :
    NearestMatchResult :=
  if line.isEmpty then {}
  else
    let cands := nearestCandidates idx line maxDistanceMeters
    if cands.isEmpty then {}
    else
      let lineXY := idx.projector.lineToXY line
      let lineOverall := overallLineAngle lineXY
      let minDistance := pass1Min idx cands lineXY lineOverall maxAngleRad maxOverallAngleRad
      if (maxDistanceMeters : WithTop ℚ) < minDistance then {}
      else
        let bias := if priorityBiasMeters < 0 then 0 else priorityBiasMeters
        let cutoff := minDistance + (bias : WithTop ℚ)
        let s := pass2Best idx cands lineXY lineOverall maxAngleRad maxOverallAngleRad cutoff
        if s.bestDistance ≤ (maxDistanceMeters : WithTop ℚ) then
          { priority := s.bestPriority, objectID := s.bestObjectID,
            distance := s.bestDistance, hasMatch := true }
        else {}

/-! ### Strings and properties

Go strings are modelled as Lean `String`s; `strings.TrimSpace`,
`strings.ToLower`, `strings.EqualFold`, `strings.TrimPrefix` and
`strconv.Atoi` are modelled over the character list (`EqualFold` and
`ToLower` in their ASCII behaviour, which covers every string the
program compares). -/

def isSpaceChar (c : Char) : Bool :=
  c = ' ' || c = '\t' || c = '\n' || c = '\r'

/-- Model of `strings.TrimSpace`. -/
def goTrim (s : String) : String :=
  ⟨(((s.data.dropWhile isSpaceChar).reverse.dropWhile isSpaceChar).reverse)⟩

def lowerChar (c : Char) : Char :=
  if 'A' ≤ c ∧ c ≤ 'Z' then Char.ofNat (c.toNat + 32) else c

/-- Model of `strings.ToLower` (ASCII). -/
def goToLower (s : String) : String := ⟨s.data.map lowerChar⟩

/-- Model of `strings.EqualFold` (ASCII case folding). -/
def eqFold (a b : String) : Bool := goToLower a == goToLower b

/-- Model of `strconv.Atoi` (optional sign, decimal digits only). -/
def goAtoi (s : String) : Option ℤ :=
  if s.startsWith "-" then ((s.drop 1).toNat?).map fun n => -(n : ℤ)
  else if s.startsWith "+" then ((s.drop 1).toNat?).map fun n => (n : ℤ)
  else (s.toNat?).map fun n => (n : ℤ)

/-- The `geojson.Properties` keys the program reads, as a record with
the `MustString`/`MustInt` defaults for missing keys. -/
structure Props where
  objectID : ℤ := 0
  wintPlow : String := ""
  wintLOS : String := ""
  owner : String := ""
  location : String := ""
  bikeName : String := ""
  streetName : String := ""
  biketype : String := ""
  protType : String := ""
  priority : String := ""
deriving DecidableEq, Repr, Inhabited

/-- The geometry shapes `flattenLineString` distinguishes
(`orb.LineString`, `orb.MultiLineString`, anything else). -/
inductive Geom where
  | lineString (ls : List GeoPoint)
  | multiLineString (parts : List (List GeoPoint))
  | other
deriving DecidableEq, Repr, Inhabited

/-- A parsed geojson feature: properties plus geometry. -/
structure GeoFeature where
  props : Props
  geometry : Geom
deriving DecidableEq, Repr, Inhabited

/-- `flattenLineString`: `(ls, ok, err)` becomes
`Except String (Option LineString)` — `.error` for an unknown geometry
type, `.ok none` for an empty flattened geometry. -/
def flattenLineString : Geom → Except String (Option (List GeoPoint))
  | .lineString ls => if ls.isEmpty then .ok none else .ok (some ls)
  | .multiLineString parts =>
    let ls := parts.flatten
    if ls.isEmpty then .ok none else .ok (some ls)
  | .other => .error "unknown geometry type"

def isNotPlowed (props : Props) : Bool := eqFold (goTrim props.wintPlow) "N"

def isPrivateOwner (owner : String) : Bool := eqFold (goTrim owner) "PRIV"

def isProtectedBike (props : Props) : Bool :=
  let protType := goTrim props.protType
  if protType ≠ "" && !(eqFold protType "NONE") then true
  else
    match goTrim props.biketype with
    | "PROTBL" | "INT_PROTBL" | "MUPATH" => true
    | _ => false

/-- `priorityFromWintLOS`: `(uint8, bool)` becomes `Option (Fin 256)`. -/
def priorityFromWintLOS (value : String) : Option (Fin 256) :=
  let value := goTrim value
  if value = "" then none
  else
    let priorityNum := if value.startsWith "PRI" then value.drop 3 else value
    match goAtoi priorityNum with
    | none => none
    | some priority =>
      if h : priority < 1 ∨ 3 < priority then none
      else some ⟨priority.toNat, by omega⟩

/-- `titleNormalizer.bestByLower`, an association list keyed by the
lowercased string. -/
def TitleNormalizer := List (String × String)

/-- `titleNormalizer.normalize`. -/
def normalizeTitle (t : TitleNormalizer) (value : String) : String :=
  let raw := goTrim value
  if raw = "" then ""
  else
    match (t : List (String × String)).lookup (goToLower raw) with
    | some best => best
    | none => raw

/-- `bikeTitle`: the resolved title and whether it came only from the
generic `BIKETYPE` code. -/
def bikeTitle (props : Props) (titles : TitleNormalizer) : String × Bool :=
  let title := normalizeTitle titles props.bikeName
  if title ≠ "" then (title, false)
  else
    let title := normalizeTitle titles props.streetName
    if title ≠ "" then (title, false)
    else (normalizeTitle titles props.biketype, true)

/-! ### Output features and the per-feature bike matching policy -/

/-- `lineFeature`. -/
structure LineFeature where
  title : String
  priority : Fin 256
  coords : List GeoPoint
  sourceDataset : Fin 256
  objectID : ℤ := 0
deriving DecidableEq, Repr, Inhabited

def datasetTravelways : Fin 256 := 0
def datasetBike : Fin 256 := 1
def datasetIce : Fin 256 := 2

/-- `travelwayNoPlowLines`: the not-plowed, non-private travelway
geometries (priority 1, object id from `OBJECTID`), skipping features
whose geometry is invalid or empty. -/
def travelwayNoPlowLines (fc : List GeoFeature) : List IndexedLine :=
  fc.filterMap fun f =>
    let props := f.props
    if isPrivateOwner (goTrim props.owner) then none
    else if !isNotPlowed props then none
    else
      match flattenLineString f.geometry with
      | .error _ => none
      | .ok none => none
      | .ok (some ls) => some { coords := ls, priority := 1, objectID := props.objectID }

/-- The tail of the `bikeLines` loop body shared by the protected and
unprotected branches: the `WINT_LOS` fallback, the matched-title
resolution, and the emit/skip decision.  `travelwaysIndex` is always
non-nil at the call sites, so its nil check is modelled as true. -/
def bikeFinish (props : Props) (ls : List GeoPoint) (title : String)
    (titleFromType : Bool) (travelwaysIndex : SpatialIndex)
    (travelwayTitles : List (ℤ × String))
    (maxMatchMeters maxAngleRad maxOverallAngleRad : ℚ)
    (priority : Fin 256) (travelwayID : ℤ) (found : Bool)
    (sourceDataset : Fin 256) : Option LineFeature :=
  let (priority, sourceDataset, found) :=
    if !found then
      match priorityFromWintLOS props.wintLOS with
      | some fallback => (fallback, datasetBike, true)
      | none => (priority, sourceDataset, found)
    else (priority, sourceDataset, found)
  let travelwayID :=
    if titleFromType && travelwayID == 0 then
      (travelwaysIndex.nearestMatch ls maxMatchMeters maxAngleRad maxOverallAngleRad 0).objectID
    else travelwayID
  let title :=
    if titleFromType && travelwayID ≠ 0 then
      match travelwayTitles.lookup travelwayID with
      | some travelwayTitle => if travelwayTitle ≠ "" then travelwayTitle else title
      | none => title
    else title
  if !found then none
  else some { title := title, priority := priority, coords := ls, sourceDataset := sourceDataset }

/-- One iteration of the `bikeLines` loop: the decision for a single
bicycle-route feature.  `.ok none` means the feature is skipped
(`continue`), `.error` aborts the run (invalid geometry). -/
def bikeFeatureStep (titles : TitleNormalizer) (travelwaysIndex : SpatialIndex)
    (travelwayTitles : List (ℤ × String)) (noPlowIndex : Option SpatialIndex)
    (iceIndex : SpatialIndex)
    (maxMatchMeters maxAngleRad maxOverallAngleRad priorityBiasMeters : ℚ)
    (f : GeoFeature) : Except String (Option LineFeature) :=
  let props := f.props
  if isNotPlowed props then .ok none
  else
    match flattenLineString f.geometry with
    | .error e => .error e
    | .ok none => .ok none
    | .ok (some ls) =>
      let tb := bikeTitle props titles
      let title := tb.1
      let titleFromType := tb.2
      if isProtectedBike props then
        let noPlowObjectID : ℤ :=
          match noPlowIndex with
          | some npi =>
            (npi.nearestMatch ls maxMatchMeters maxAngleRad maxOverallAngleRad 0).objectID
          | none => 0
        if noPlowObjectID ≠ 0 then .ok none
        else
          let m := travelwaysIndex.nearestMatch ls maxMatchMeters maxAngleRad
            maxOverallAngleRad priorityBiasMeters
          .ok (bikeFinish props ls title titleFromType travelwaysIndex travelwayTitles
            maxMatchMeters maxAngleRad maxOverallAngleRad
            m.priority m.objectID m.hasMatch
            (if m.hasMatch then datasetTravelways else 0))
      else
        let m := iceIndex.nearestMatch ls maxMatchMeters maxAngleRad
          maxOverallAngleRad priorityBiasMeters
        .ok (bikeFinish props ls title titleFromType travelwaysIndex travelwayTitles
          maxMatchMeters maxAngleRad maxOverallAngleRad
          m.priority 0 m.hasMatch
          (if m.hasMatch then datasetIce else 0))

/-- `bikeLines`: the loop over the bicycle-route feature collection
(threshold angles arrive in degrees and are converted once). -/
def bikeLines (fc : List GeoFeature) (titles : TitleNormalizer)
    (travelwaysIndex : SpatialIndex) (travelwayTitles : List (ℤ × String))
    (noPlowIndex : Option SpatialIndex) (iceIndex : SpatialIndex)
    (maxMatchMeters maxAngleDeg maxOverallAngleDeg priorityBiasMeters : ℚ) :
    Except String (List LineFeature) :=
  let maxAngleRad := deg2rad maxAngleDeg
  let maxOverallAngleRad := deg2rad maxOverallAngleDeg
  fc.foldlM
    (fun acc f =>
      (bikeFeatureStep titles travelwaysIndex travelwayTitles noPlowIndex iceIndex
        maxMatchMeters maxAngleRad maxOverallAngleRad priorityBiasMeters f).map
        fun r =>
          match r with
          | none => acc
          | some lf => acc ++ [lf])
    []

/-! ### Binary encoding (`encodeFeatures`) and the renderer-side decoder

The stream is a list of tokens: one `byte` token per written byte
(little-endian within each integer field, exactly as
`binary.Write(..., binary.LittleEndian, ...)` lays them out), and one
opaque `flt` token for each of the two raw `float64` base coordinates. -/

inductive Tok where
  | byte (b : ℕ)
  | flt (q : ℚ)
deriving DecidableEq, Repr, Inhabited

/-- `uint8` serialization (one byte). -/
def u8T (n : ℕ) : List Tok := [.byte (n % 256)]

/-- `uint16` little-endian serialization. -/
def u16T (n : ℕ) : List Tok := [.byte (n % 256), .byte (n / 256 % 256)]

/-- `uint32` little-endian serialization. -/
def u32T (n : ℕ) : List Tok :=
  [.byte (n % 256), .byte (n / 256 % 256), .byte (n / 65536 % 256), .byte (n / 16777216 % 256)]

/-- The `int32(...)` conversion composed with little-endian
serialization: two's-complement wrap of the integer into 4 bytes (the
conversion is implementation-defined in Go when the value overflows;
wrap-around is the reference model here). -/
def i32T (z : ℤ) : List Tok := u32T (z % 4294967296).toNat

def f64T (q : ℚ) : List Tok := [.flt q]

/-- The value an `int32` round trip yields: wrap into [-2³¹, 2³¹). -/
def wrap32 (z : ℤ) : ℤ := (z + 2147483648) % 4294967296 - 2147483648

/-- UTF-8 encoding of one scalar value. -/
def utf8Char (c : Char) : List ℕ :=
  let n := c.toNat
  if n < 128 then [n]
  else if n < 2048 then [192 + n / 64, 128 + n % 64]
  else if n < 65536 then [224 + n / 4096, 128 + n / 64 % 64, 128 + n % 64]
  else [240 + n / 262144, 128 + n / 4096 % 64, 128 + n / 64 % 64, 128 + n % 64]

/-- `[]byte(s)`: the UTF-8 bytes of a string. -/
def utf8Bytes (s : String) : List ℕ := s.data.flatMap utf8Char

/-- `mapM` over `Except`, written out structurally (the sequential
error-or-continue behaviour of the write loops). -/
def mapME (g : α → Except String β) : List α → Except String (List β)
  | [] => .ok []
  | x :: xs => do
    let y ← g x
    let ys ← mapME g xs
    return y :: ys

/-- The features that survive the empty-geometry skip and are bucketed
(`featuresForSeg`; the representative point is the first coordinate). -/
def featuresForSeg (features : List LineFeature) : List LineFeature :=
  features.filter fun f => !f.coords.isEmpty

/-- The four global bounding-box folds of `encodeFeatures`, over the
coordinates of the surviving features. -/
def globalMinLonOf (features : List LineFeature) : ℚ :=
  (featuresForSeg features).foldl
    (fun acc f => f.coords.foldl (fun a c => if c.lon < a then c.lon else a) acc) maxFloatQ

def globalMinLatOf (features : List LineFeature) : ℚ :=
  (featuresForSeg features).foldl
    (fun acc f => f.coords.foldl (fun a c => if c.lat < a then c.lat else a) acc) maxFloatQ

def globalMaxLonOf (features : List LineFeature) : ℚ :=
  (featuresForSeg features).foldl
    (fun acc f => f.coords.foldl (fun a c => if a < c.lon then c.lon else a) acc) (-maxFloatQ)

def globalMaxLatOf (features : List LineFeature) : ℚ :=
  (featuresForSeg features).foldl
    (fun acc f => f.coords.foldl (fun a c => if a < c.lat then c.lat else a) acc) (-maxFloatQ)

/-- The grid cell a feature is bucketed into (by its first coordinate
only), with the division-guard and the clamps of the source. -/
def cellOfFeature (gMinLon gMaxLon gMinLat gMaxLat : ℚ) (f : LineFeature) : ℤ × ℤ :=
  let repLon := (f.coords.getD 0 default).lon
  let repLat := (f.coords.getD 0 default).lat
  let col : ℤ :=
    if gMinLon < gMaxLon then truncQ ((repLon - gMinLon) / (gMaxLon - gMinLon) * 8) else 0
  let col := if col < 0 then 0 else col
  let col := if 8 ≤ col then 7 else col
  let row : ℤ :=
    if gMinLat < gMaxLat then truncQ ((repLat - gMinLat) / (gMaxLat - gMinLat) * 4) else 0
  let row := if row < 0 then 0 else row
  let row := if 4 ≤ row then 3 else row
  (row, col)

/-- The 8×4 grid keys in row-major order (`for row := range rows`,
`for col := range cols`). -/
def segKeys : List (ℤ × ℤ) :=
  (intRange 0 3).flatMap fun row => (intRange 0 7).map fun col => (row, col)

/-- The non-empty Segments in row-major order, each with its member
features in input order (`segmentsMap` read back cell by cell). -/
def segmentsOf (features : List LineFeature) : List ((ℤ × ℤ) × List LineFeature) :=
  let gMinLon := globalMinLonOf features
  let gMaxLon := globalMaxLonOf features
  let gMinLat := globalMinLatOf features
  let gMaxLat := globalMaxLatOf features
  segKeys.filterMap fun key =>
    let feats := (featuresForSeg features).filter fun f =>
      decide (cellOfFeature gMinLon gMaxLon gMinLat gMaxLat f = key)
    if feats.isEmpty then none else some (key, feats)

/-- A Segment's tight bounding box: the four folds over all member
features' coordinates. -/
def segMinLonOf (feats : List LineFeature) : ℚ :=
  feats.foldl (fun acc f => f.coords.foldl (fun a c => if c.lon < a then c.lon else a) acc)
    maxFloatQ

def segMinLatOf (feats : List LineFeature) : ℚ :=
  feats.foldl (fun acc f => f.coords.foldl (fun a c => if c.lat < a then c.lat else a) acc)
    maxFloatQ

def segMaxLonOf (feats : List LineFeature) : ℚ :=
  feats.foldl (fun acc f => f.coords.foldl (fun a c => if a < c.lon then c.lon else a) acc)
    (-maxFloatQ)

def segMaxLatOf (feats : List LineFeature) : ℚ :=
  feats.foldl (fun acc f => f.coords.foldl (fun a c => if a < c.lat then c.lat else a) acc)
    (-maxFloatQ)

/-- The 1e6-scaled, rounded, int32-converted delta of a coordinate
against the base. -/
def coordDelta (base v : ℚ) : ℤ := roundGo ((v - base) * 1000000)

/-- Serialization of one feature record (title-length check before the
title bytes, coordinate-count check before the count, as in the
source). -/
def encodeFeatureTok (baseLon baseLat : ℚ) (f : LineFeature) : Except String (List Tok) :=
  let titleBytes := utf8Bytes f.title
  if titleBytes.length > 255 then .error "title too long"
  else if f.coords.length > 65535 then .error "too many coordinates in feature"
  else
    .ok (u8T titleBytes.length ++ titleBytes.map Tok.byte ++ u8T f.priority.val ++
      u8T f.sourceDataset.val ++ u16T f.coords.length ++
      f.coords.flatMap fun c =>
        i32T (coordDelta baseLon c.lon) ++ i32T (coordDelta baseLat c.lat))

/-- Serialization of one Segment: tight box deltas, feature count,
then the feature records. -/
def encodeSegmentTok (baseLon baseLat : ℚ) (feats : List LineFeature) :
    Except String (List Tok) := do
  let body ← mapME (encodeFeatureTok baseLon baseLat) feats
  return i32T (coordDelta baseLon (segMinLonOf feats)) ++
    i32T (coordDelta baseLat (segMinLatOf feats)) ++
    i32T (coordDelta baseLon (segMaxLonOf feats)) ++
    i32T (coordDelta baseLat (segMaxLatOf feats)) ++
    u32T feats.length ++ body.flatten

/-- `encodeFeatures`. -/
def encodeFeatures (features : List LineFeature) : Except String (List Tok) :=
  if features.isEmpty then .error "no features"
  else
    let baseLon := globalMinLonOf features
    let baseLat := globalMinLatOf features
    let segments := segmentsOf features
    do
      let bodies ← mapME (fun s => encodeSegmentTok baseLon baseLat s.2) segments
      return u32T segments.length ++ f64T baseLon ++ f64T baseLat ++ bodies.flatten

/-! ### The decoder (modelled from the repository's test reader,
`readFeaturesBin`) -/

structure DecodedFeature where
  titleBytes : List ℕ
  priority : ℕ
  sourceDataset : ℕ
  coords : List GeoPoint
deriving DecidableEq, Repr, Inhabited

def rdU8 : List Tok → Option (ℕ × List Tok)
  | .byte b :: r => some (b, r)
  | _ => none

def rdU16 : List Tok → Option (ℕ × List Tok)
  | .byte b0 :: .byte b1 :: r => some (b0 + 256 * b1, r)
  | _ => none

def rdU32 : List Tok → Option (ℕ × List Tok)
  | .byte b0 :: .byte b1 :: .byte b2 :: .byte b3 :: r =>
    some (b0 + 256 * b1 + 65536 * b2 + 16777216 * b3, r)
  | _ => none

def rdI32 (s : List Tok) : Option (ℤ × List Tok) :=
  (rdU32 s).map fun p =>
    (if p.1 < 2147483648 then (p.1 : ℤ) else (p.1 : ℤ) - 4294967296, p.2)

def rdF64 : List Tok → Option (ℚ × List Tok)
  | .flt q :: r => some (q, r)
  | _ => none

def rdBytes : ℕ → List Tok → Option (List ℕ × List Tok)
  | 0, s => some ([], s)
  | n + 1, .byte b :: r => (rdBytes n r).map fun p => (b :: p.1, p.2)
  | _ + 1, _ => none

def rdCoords (baseLon baseLat : ℚ) : ℕ → List Tok → Option (List GeoPoint × List Tok)
  | 0, s => some ([], s)
  | n + 1, s => do
    let (dLon, s) ← rdI32 s
    let (dLat, s) ← rdI32 s
    let (cs, s) ← rdCoords baseLon baseLat n s
    return (⟨baseLon + (dLon : ℚ) / 1000000, baseLat + (dLat : ℚ) / 1000000⟩ :: cs, s)

def rdFeature (baseLon baseLat : ℚ) (s : List Tok) : Option (DecodedFeature × List Tok) := do
  let (titleLen, s) ← rdU8 s
  let (titleBytes, s) ← rdBytes titleLen s
  let (priority, s) ← rdU8 s
  let (sourceDataset, s) ← rdU8 s
  let (coordCount, s) ← rdU16 s
  let (coords, s) ← rdCoords baseLon baseLat coordCount s
  return (⟨titleBytes, priority, sourceDataset, coords⟩, s)

def rdFeatures (baseLon baseLat : ℚ) : ℕ → List Tok → Option (List DecodedFeature × List Tok)
  | 0, s => some ([], s)
  | n + 1, s => do
    let (f, s) ← rdFeature baseLon baseLat s
    let (fs, s) ← rdFeatures baseLon baseLat n s
    return (f :: fs, s)

/-- One Segment: the four box deltas are read and discarded, then the
member features. -/
def rdSegment (baseLon baseLat : ℚ) (s : List Tok) :
    Option (List DecodedFeature × List Tok) := do
  let (_, s) ← rdI32 s
  let (_, s) ← rdI32 s
  let (_, s) ← rdI32 s
  let (_, s) ← rdI32 s
  let (featureCount, s) ← rdU32 s
  rdFeatures baseLon baseLat featureCount s

def rdSegments (baseLon baseLat : ℚ) : ℕ → List Tok → Option (List DecodedFeature × List Tok)
  | 0, s => some ([], s)
  | n + 1, s => do
    let (fs, s) ← rdSegment baseLon baseLat s
    let (rest, s) ← rdSegments baseLon baseLat n s
    return (fs ++ rest, s)

/-- The decoder: header, then the flattened feature list across all
Segments (trailing bytes are not inspected, as in the test reader). -/
def decodeFeaturesBin (s : List Tok) : Option (List DecodedFeature) := do
  let (segCount, s) ← rdU32 s
  let (baseLon, s) ← rdF64 s
  let (baseLat, s) ← rdF64 s
  let (out, _) ← rdSegments baseLon baseLat segCount s
  return out

/-- The coordinate the decoder reconstructs from one encoded
coordinate: base plus the int32-wrapped scaled delta, rescaled. -/
def decCoord (baseLon baseLat : ℚ) (c : GeoPoint) : GeoPoint :=
  ⟨baseLon + ((wrap32 (coordDelta baseLon c.lon) : ℤ) : ℚ) / 1000000,
   baseLat + ((wrap32 (coordDelta baseLat c.lat) : ℤ) : ℚ) / 1000000⟩

/-- The record the decoder reconstructs from one encoded feature. -/
def decFeature (baseLon baseLat : ℚ) (f : LineFeature) : DecodedFeature :=
  ⟨utf8Bytes f.title, f.priority.val, f.sourceDataset.val,
   f.coords.map (decCoord baseLon baseLat)⟩

/-! ### `writeFeaturesBin` over an explicit filesystem model -/

/-- A filesystem: path → file contents (as a token stream). -/
def FileSystem := String → Option (List Tok)

/-- `writeFeaturesBin`: encode into an in-memory buffer; only on
success write the file.  Returns the new filesystem and the error, if
any. -/
def writeFeaturesBin (fs : FileSystem) (path : String) (features : List LineFeature) :
    FileSystem × Option String :=
  match encodeFeatures features with
  | .error e => (fs, some e)
  | .ok out => (fun p => if p = path then some out else fs p, none)

/-! ### Concrete inputs

The geographic inputs are laid out in units of `uDeg` — one planar
meter expressed in degrees.  With the reference sets symmetric about
latitude 0 the index projector's `lat0Rad` is exactly 0, so a point at
`(m * uDeg, n * uDeg)` projects to exactly `(m, n)` meters, and every
distance the matcher computes is a small integer. -/

def uDeg : ℚ := 180 / (piQ * earthRadius)

/-- Candidate at 11 m, priority 2, object id 1 (the nearer, lower
priority candidate of the priority-bias scenario). -/
def lineAM : IndexedLine :=
  { coords := [⟨0, 11 * uDeg⟩, ⟨111 * uDeg, 11 * uDeg⟩], priority := 2, objectID := 1 }

/-- Candidate at 22 m, priority 1, object id 2 (the farther, higher
priority candidate). -/
def lineBM : IndexedLine :=
  { coords := [⟨0, 22 * uDeg⟩, ⟨111 * uDeg, 22 * uDeg⟩], priority := 1, objectID := 2 }

/-- A far line that makes the reference set symmetric about latitude 0
(so the projector is exact) and lies in grid cells the query never
scans. -/
def linePM : IndexedLine :=
  { coords := [⟨1000 * uDeg, -40 * uDeg⟩, ⟨1111 * uDeg, 40 * uDeg⟩],
    priority := 3, objectID := 9 }

def idxM : SpatialIndex :=
  (newSpatialIndex [lineAM, lineBM, linePM] 2 2).toOption.getD default

/-- The query line: 111 m long, at latitude 0. -/
def queryM : List GeoPoint := [⟨0, 0⟩, ⟨111 * uDeg, 0⟩]

/-- Travelways rows whose no-plow lines carry object id 0 (`OBJECTID`
missing, so `MustInt` yields the zero value): a no-plow way 11 m from
the query and the far symmetry-padding way. -/
def twNoPlow0FC : List GeoFeature :=
  [{ props := { wintPlow := "N", owner := "HRM", location := "No Plow Way" }
     geometry := .lineString [⟨0, 11 * uDeg⟩, ⟨111 * uDeg, 11 * uDeg⟩] },
   { props := { wintPlow := "N", owner := "HRM", location := "No Plow Far" }
     geometry := .lineString [⟨1000 * uDeg, -40 * uDeg⟩, ⟨1111 * uDeg, 40 * uDeg⟩] }]

def noPlowIdx0 : SpatialIndex :=
  (newSpatialIndex (travelwayNoPlowLines twNoPlow0FC) 2 2).toOption.getD default

/-- The same travelways rows with `OBJECTID` present (5 and 6). -/
def twNoPlow5FC : List GeoFeature :=
  [{ props := { objectID := 5, wintPlow := "N", owner := "HRM", location := "No Plow Way" }
     geometry := .lineString [⟨0, 11 * uDeg⟩, ⟨111 * uDeg, 11 * uDeg⟩] },
   { props := { objectID := 6, wintPlow := "N", owner := "HRM", location := "No Plow Far" }
     geometry := .lineString [⟨1000 * uDeg, -40 * uDeg⟩, ⟨1111 * uDeg, 40 * uDeg⟩] }]

def noPlowIdx5 : SpatialIndex :=
  (newSpatialIndex (travelwayNoPlowLines twNoPlow5FC) 2 2).toOption.getD default

/-- The plowed-travelways index: a priority-1 way 22 m from the query
(object id 7) plus far padding. -/
def twIdxM : SpatialIndex :=
  (newSpatialIndex
    [{ coords := [⟨0, 22 * uDeg⟩, ⟨111 * uDeg, 22 * uDeg⟩], priority := 1, objectID := 7 },
     { coords := [⟨1000 * uDeg, -40 * uDeg⟩, ⟨1111 * uDeg, 40 * uDeg⟩],
       priority := 3, objectID := 8 }] 2 2).toOption.getD default

/-- An ice-routes index roughly 100 km away from the query: its
candidate scan for the query is empty. -/
def iceIdxFar : SpatialIndex :=
  (newSpatialIndex
    [{ coords := [⟨1000000 * uDeg, 11 * uDeg⟩, ⟨1000111 * uDeg, 11 * uDeg⟩],
       priority := 2, objectID := 0 },
     { coords := [⟨1000000 * uDeg, -40 * uDeg⟩, ⟨1000111 * uDeg, 40 * uDeg⟩],
       priority := 1, objectID := 0 }] 2 2).toOption.getD default

/-- A protected bicycle-route feature on the query line. -/
def bikeFProt : GeoFeature :=
  { props := { objectID := 10, wintPlow := "Y", wintLOS := "PRI1", biketype := "PROTBL",
               protType := "CURB", bikeName := "Trail", streetName := "Test St" }
    geometry := .lineString [⟨0, 0⟩, ⟨111 * uDeg, 0⟩] }

/-- An unprotected bicycle-route feature on the query line, with a
declared fallback priority code. -/
def bikeFUnprot : GeoFeature :=
  { props := { objectID := 11, wintPlow := "Y", wintLOS := "PRI2", biketype := "ONSTREET",
               protType := "NONE", bikeName := "Trail", streetName := "Side St" }
    geometry := .lineString [⟨0, 0⟩, ⟨111 * uDeg, 0⟩] }

/-- Two well-formed output features spanning two grid cells (for the
round-trip and box witnesses). -/
def fsRT : List LineFeature :=
  [{ title := "Main St", priority := 1, coords := [⟨0, 0⟩, ⟨1, 2⟩], sourceDataset := 0 },
   { title := "B", priority := 2, coords := [⟨100, 40⟩], sourceDataset := 2 }]

/-- A feature list whose only member has an empty coordinate list. -/
def fsEmptyCoords : List LineFeature :=
  [{ title := "A", priority := 1, coords := [], sourceDataset := 0 }]

/-- A 256-byte title. -/
def longTitle : String := ⟨List.replicate 256 'a'⟩

/-- A feature whose title is over 255 bytes but whose coordinate list
is empty. -/
def fsLongTitleEmpty : List LineFeature :=
  [{ title := longTitle, priority := 1, coords := [], sourceDataset := 0 }]

/-- A feature whose second coordinate is 3000 degrees east of the
first: its 1e6-scaled delta (3·10⁹) exceeds the int32 range. -/
def fsBig : List LineFeature :=
  [{ title := "X", priority := 1, coords := [⟨0, 0⟩, ⟨3000, 0⟩], sourceDataset := 0 }]

/-! ## Theorems -/

set_option maxRecDepth 2000

attribute [local semireducible] Rat.mul Rat.inv Rat.add Rat.sub

deriving instance DecidableEq for Except

/-- C2: whenever `nearestMatch` reports a match, the reported distance
is at most `maxDistanceMeters`. -/
theorem nearestMatch_distance_le_maxDistance
    (idx : SpatialIndex) (line : List GeoPoint)
    (maxDistanceMeters maxAngleRad maxOverallAngleRad priorityBiasMeters : ℚ)
    (h : (idx.nearestMatch line maxDistanceMeters maxAngleRad maxOverallAngleRad
      priorityBiasMeters).hasMatch = true) :
    (idx.nearestMatch line maxDistanceMeters maxAngleRad maxOverallAngleRad
      priorityBiasMeters).distance ≤ ((maxDistanceMeters : ℚ) : WithTop ℚ) := by
  revert h
  simp only [SpatialIndex.nearestMatch]
  split_ifs <;> intro hM
  all_goals simp only [] at hM
  all_goals simp only []
  all_goals assumption

/-- C2 witness: the two-candidate scenario produces a match, and the
theorem bounds its distance by the 30 m threshold. -/
theorem nearestMatch_distance_le_maxDistance_witness :
    (idxM.nearestMatch queryM 30 (1/10) 1 15).hasMatch = true ∧
    (idxM.nearestMatch queryM 30 (1/10) 1 15).distance ≤ ((30 : ℚ) : WithTop ℚ) :=
  ⟨by decide, nearestMatch_distance_le_maxDistance idxM queryM 30 (1/10) 1 15 (by decide)⟩

/-- C10: when encoding fails, `writeFeaturesBin` leaves the filesystem
untouched — no file is created, modified, or partially written. -/
theorem writeFeaturesBin_error_leaves_fs (fs : FileSystem) (path : String)
    (features : List LineFeature) (e : String)
    (h : encodeFeatures features = .error e) :
    (writeFeaturesBin fs path features).1 = fs := by
  unfold writeFeaturesBin
  rw [h]

/-- C10 witness: encoding the empty feature list fails, and the write
leaves the (empty) filesystem unchanged. -/
theorem writeFeaturesBin_error_leaves_fs_witness :
    encodeFeatures ([] : List LineFeature) = .error "no features" ∧
    (writeFeaturesBin (fun _ => none) "features_cycling.bin" []).1 = (fun _ => none) :=
  ⟨rfl, writeFeaturesBin_error_leaves_fs (fun _ => none) "features_cycling.bin" []
    "no features" rfl⟩

/-- Transitivity of the (priority, distance) selection order of pass 2. -/
theorem matchLex_trans {p1 p2 p3 : Fin 256} {d1 d2 d3 : WithTop ℚ}
    (h1 : p1 < p2 ∨ (p1 = p2 ∧ d1 ≤ d2)) (h2 : p2 < p3 ∨ (p2 = p3 ∧ d2 ≤ d3)) :
    p1 < p3 ∨ (p1 = p3 ∧ d1 ≤ d3) := by
  rcases h1 with h1 | ⟨rfl, h1⟩
  · rcases h2 with h2 | ⟨rfl, h2⟩
    · exact Or.inl (lt_trans h1 h2)
    · exact Or.inl h1
  · rcases h2 with h2 | ⟨rfl, h2⟩
    · exact Or.inl h2
    · exact Or.inr ⟨rfl, le_trans h1 h2⟩

/-- Case analysis on one pass-2 loop iteration: the state is either
unchanged, or replaced by an eligible candidate within the cutoff that
strictly improves the (priority, distance) order. -/
theorem pass2Step_cases (idx : SpatialIndex) (lineXY : List PointXY)
    (lineOverall : Option ℚ) (maxA maxOA : ℚ) (cutoff : WithTop ℚ)
    (s : Pass2State) (i : ℕ) :
    pass2Step idx lineXY lineOverall maxA maxOA cutoff s i = s ∨
    (overallSkip maxOA lineOverall (idx.lines.getD i default) = false ∧
     candDist idx lineXY maxA i ≤ cutoff ∧
     pass2Step idx lineXY lineOverall maxA maxOA cutoff s i =
       ⟨candDist idx lineXY maxA i, (idx.lines.getD i default).priority,
        (idx.lines.getD i default).objectID⟩ ∧
     ((idx.lines.getD i default).priority < s.bestPriority ∨
      ((idx.lines.getD i default).priority = s.bestPriority ∧
       candDist idx lineXY maxA i < s.bestDistance))) := by
  unfold pass2Step
  dsimp only
  split_ifs with h1 h2 h3
  · exact Or.inl rfl
  · exact Or.inl rfl
  · exact Or.inr ⟨Bool.eq_false_iff.mpr h1, not_lt.mp h2, rfl, h3⟩
  · exact Or.inl rfl

/-- One pass-2 iteration never worsens the selection order. -/
theorem pass2Step_lex_le_self (idx : SpatialIndex) (lineXY : List PointXY)
    (lineOverall : Option ℚ) (maxA maxOA : ℚ) (cutoff : WithTop ℚ)
    (s : Pass2State) (i : ℕ) :
    (pass2Step idx lineXY lineOverall maxA maxOA cutoff s i).bestPriority < s.bestPriority ∨
    ((pass2Step idx lineXY lineOverall maxA maxOA cutoff s i).bestPriority = s.bestPriority ∧
     (pass2Step idx lineXY lineOverall maxA maxOA cutoff s i).bestDistance ≤ s.bestDistance) := by
  rcases pass2Step_cases idx lineXY lineOverall maxA maxOA cutoff s i with h | ⟨_, _, heq, hcond⟩
  · rw [h]; exact Or.inr ⟨rfl, le_refl _⟩
  · rw [heq]
    rcases hcond with h | ⟨h, hd⟩
    · exact Or.inl h
    · exact Or.inr ⟨h, le_of_lt hd⟩

/-- After processing an eligible candidate within the cutoff, the
pass-2 state is at least as good as that candidate. -/
theorem pass2Step_lex_le_cand (idx : SpatialIndex) (lineXY : List PointXY)
    (lineOverall : Option ℚ) (maxA maxOA : ℚ) (cutoff : WithTop ℚ)
    (s : Pass2State) (i : ℕ)
    (hsk : overallSkip maxOA lineOverall (idx.lines.getD i default) = false)
    (hle : candDist idx lineXY maxA i ≤ cutoff) :
    (pass2Step idx lineXY lineOverall maxA maxOA cutoff s i).bestPriority
        < (idx.lines.getD i default).priority ∨
    ((pass2Step idx lineXY lineOverall maxA maxOA cutoff s i).bestPriority
        = (idx.lines.getD i default).priority ∧
     (pass2Step idx lineXY lineOverall maxA maxOA cutoff s i).bestDistance
        ≤ candDist idx lineXY maxA i) := by
  unfold pass2Step
  dsimp only
  rw [hsk]
  simp only [Bool.false_eq_true, if_false]
  rw [if_neg (not_lt.mpr hle)]
  split_ifs with h
  · exact Or.inr ⟨rfl, le_refl _⟩
  · push_neg at h
    rcases lt_or_eq_of_le h.1 with h1 | h1
    · exact Or.inl h1
    · exact Or.inr ⟨h1, h.2 h1.symm⟩

/-- The pass-2 fold never worsens the selection order of its initial
state. -/
theorem pass2_foldl_lex_le_self (idx : SpatialIndex) (lineXY : List PointXY)
    (lineOverall : Option ℚ) (maxA maxOA : ℚ) (cutoff : WithTop ℚ) :
    ∀ (l : List ℕ) (s : Pass2State),
      (l.foldl (pass2Step idx lineXY lineOverall maxA maxOA cutoff) s).bestPriority
          < s.bestPriority ∨
      ((l.foldl (pass2Step idx lineXY lineOverall maxA maxOA cutoff) s).bestPriority
          = s.bestPriority ∧
       (l.foldl (pass2Step idx lineXY lineOverall maxA maxOA cutoff) s).bestDistance
          ≤ s.bestDistance) := by
  intro l
  induction l with
  | nil => intro s; exact Or.inr ⟨rfl, le_refl _⟩
  | cons x xs ih =>
    intro s
    simp only [List.foldl_cons]
    exact matchLex_trans (ih (pass2Step idx lineXY lineOverall maxA maxOA cutoff s x))
      (pass2Step_lex_le_self idx lineXY lineOverall maxA maxOA cutoff s x)

/-- Pass-2 minimality: the final state is at least as good, in the
(lowest priority, then smallest distance) order, as every eligible
candidate whose distance is within the cutoff. -/
theorem pass2_foldl_minimal (idx : SpatialIndex) (lineXY : List PointXY)
    (lineOverall : Option ℚ) (maxA maxOA : ℚ) (cutoff : WithTop ℚ) :
    ∀ (l : List ℕ) (s : Pass2State) (i : ℕ), i ∈ l →
      overallSkip maxOA lineOverall (idx.lines.getD i default) = false →
      candDist idx lineXY maxA i ≤ cutoff →
      (l.foldl (pass2Step idx lineXY lineOverall maxA maxOA cutoff) s).bestPriority
          < (idx.lines.getD i default).priority ∨
      ((l.foldl (pass2Step idx lineXY lineOverall maxA maxOA cutoff) s).bestPriority
          = (idx.lines.getD i default).priority ∧
       (l.foldl (pass2Step idx lineXY lineOverall maxA maxOA cutoff) s).bestDistance
          ≤ candDist idx lineXY maxA i) := by
  intro l
  induction l with
  | nil => intro s i hi; exact absurd hi (List.not_mem_nil i)
  | cons x xs ih =>
    intro s i hi hsk hle
    simp only [List.foldl_cons]
    rcases List.mem_cons.mp hi with rfl | hmem
    · exact matchLex_trans
        (pass2_foldl_lex_le_self idx lineXY lineOverall maxA maxOA cutoff xs _)
        (pass2Step_lex_le_cand idx lineXY lineOverall maxA maxOA cutoff s i hsk hle)
    · exact ih _ i hmem hsk hle

/-- Pass-1 attainment: the first-pass minimum is either its initial
value or the distance of some non-skipped candidate in the list. -/
theorem pass1_foldl_attain (idx : SpatialIndex) (lineXY : List PointXY)
    (lineOverall : Option ℚ) (maxA maxOA : ℚ) :
    ∀ (l : List ℕ) (init : WithTop ℚ),
      l.foldl (fun acc i =>
        if overallSkip maxOA lineOverall (idx.lines.getD i default) then acc
        else
          let d := candDist idx lineXY maxA i
          if d < acc then d else acc) init = init ∨
      ∃ i ∈ l, overallSkip maxOA lineOverall (idx.lines.getD i default) = false ∧
        candDist idx lineXY maxA i =
          l.foldl (fun acc i =>
            if overallSkip maxOA lineOverall (idx.lines.getD i default) then acc
            else
              let d := candDist idx lineXY maxA i
              if d < acc then d else acc) init := by
  intro l
  induction l with
  | nil => intro init; exact Or.inl rfl
  | cons x xs ih =>
    intro init
    simp only [List.foldl_cons]
    rcases ih (if overallSkip maxOA lineOverall (idx.lines.getD x default) then init
        else
          let d := candDist idx lineXY maxA x
          if d < init then d else init) with h | ⟨i, hi, hsk, hd⟩
    · rw [h]
      by_cases hskip : overallSkip maxOA lineOverall (idx.lines.getD x default) = true
      · rw [if_pos hskip]; exact Or.inl rfl
      · rw [if_neg hskip]
        dsimp only
        by_cases hlt : candDist idx lineXY maxA x < init
        · rw [if_pos hlt]
          exact Or.inr ⟨x, List.mem_cons_self x xs, Bool.eq_false_iff.mpr hskip, rfl⟩
        · rw [if_neg hlt]; exact Or.inl rfl
    · exact Or.inr ⟨i, List.mem_cons_of_mem x hi, hsk, hd⟩

/-- The pass-1 running minimum never increases. -/
theorem pass1_foldl_le_init (idx : SpatialIndex) (lineXY : List PointXY)
    (lineOverall : Option ℚ) (maxA maxOA : ℚ) :
    ∀ (l : List ℕ) (init : WithTop ℚ),
      l.foldl (fun acc i =>
        if overallSkip maxOA lineOverall (idx.lines.getD i default) then acc
        else
          let d := candDist idx lineXY maxA i
          if d < acc then d else acc) init ≤ init := by
  intro l
  induction l with
  | nil => intro init; exact le_refl _
  | cons x xs ih =>
    intro init
    simp only [List.foldl_cons]
    refine le_trans (ih _) ?_
    split_ifs with h1 h2
    · exact le_refl _
    · exact le_of_lt h2
    · exact le_refl _

/-- The pass-2 fold preserves the invariant that the best distance is
within the cutoff. -/
theorem pass2_foldl_bd_le (idx : SpatialIndex) (lineXY : List PointXY)
    (lineOverall : Option ℚ) (maxA maxOA : ℚ) (cutoff : WithTop ℚ) :
    ∀ (l : List ℕ) (s : Pass2State), s.bestDistance ≤ cutoff →
      (l.foldl (pass2Step idx lineXY lineOverall maxA maxOA cutoff) s).bestDistance ≤ cutoff := by
  intro l
  induction l with
  | nil => intro s hs; exact hs
  | cons x xs ih =>
    intro s hs
    simp only [List.foldl_cons]
    refine ih _ ?_
    rcases pass2Step_cases idx lineXY lineOverall maxA maxOA cutoff s x with h | ⟨_, hle, heq, _⟩
    · rw [h]; exact hs
    · rw [heq]; exact hle

/-- Starting from the initial pass-2 state, processing a non-skipped
candidate with finite distance within the cutoff achieves a best
distance within the cutoff. -/
theorem pass2Step_init_achiever (idx : SpatialIndex) (lineXY : List PointXY)
    (lineOverall : Option ℚ) (maxA maxOA : ℚ) (cutoff : WithTop ℚ)
    (s : Pass2State) (i : ℕ)
    (hp : s.bestPriority = 255) (hd : s.bestDistance = ⊤)
    (hsk : overallSkip maxOA lineOverall (idx.lines.getD i default) = false)
    (hle : candDist idx lineXY maxA i ≤ cutoff)
    (hfin : candDist idx lineXY maxA i ≠ ⊤) :
    (pass2Step idx lineXY lineOverall maxA maxOA cutoff s i).bestDistance ≤ cutoff := by
  unfold pass2Step
  dsimp only
  rw [hsk]
  simp only [Bool.false_eq_true, if_false]
  rw [if_neg (not_lt.mpr hle)]
  have hcond : (idx.lines.getD i default).priority < s.bestPriority ∨
      (idx.lines.getD i default).priority = s.bestPriority ∧
        candDist idx lineXY maxA i < s.bestDistance := by
    rcases lt_or_eq_of_le (Fin.le_last ((idx.lines.getD i default).priority)) with h | h
    · exact Or.inl (hp ▸ h)
    · exact Or.inr ⟨hp ▸ h, hd ▸ lt_top_iff_ne_top.mpr hfin⟩
  rw [if_pos hcond]
  exact hle

/-- Pass-2 reachability: from the initial state, if some candidate in
the list is non-skipped, within the cutoff and at finite distance, the
final best distance is within the cutoff. -/
theorem pass2_foldl_reach (idx : SpatialIndex) (lineXY : List PointXY)
    (lineOverall : Option ℚ) (maxA maxOA : ℚ) (cutoff : WithTop ℚ) :
    ∀ (l : List ℕ) (s : Pass2State),
      s.bestPriority = 255 → s.bestDistance = ⊤ →
      (∃ i ∈ l, overallSkip maxOA lineOverall (idx.lines.getD i default) = false ∧
        candDist idx lineXY maxA i ≤ cutoff ∧ candDist idx lineXY maxA i ≠ ⊤) →
      (l.foldl (pass2Step idx lineXY lineOverall maxA maxOA cutoff) s).bestDistance ≤ cutoff := by
  intro l
  induction l with
  | nil =>
    intro s _ _ hex
    rcases hex with ⟨i, hi, _⟩
    exact absurd hi (List.not_mem_nil i)
  | cons x xs ih =>
    intro s hp hd hex
    simp only [List.foldl_cons]
    rcases hex with ⟨i, hi, hsk, hle, hfin⟩
    rcases List.mem_cons.mp hi with rfl | hmem
    · exact pass2_foldl_bd_le idx lineXY lineOverall maxA maxOA cutoff xs _
        (pass2Step_init_achiever idx lineXY lineOverall maxA maxOA cutoff s i hp hd hsk hle hfin)
    · rcases pass2Step_cases idx lineXY lineOverall maxA maxOA cutoff s x with h | ⟨_, hcle, heq, _⟩
      · rw [h]; exact ih s hp hd ⟨i, hmem, hsk, hle, hfin⟩
      · refine pass2_foldl_bd_le idx lineXY lineOverall maxA maxOA cutoff xs _ ?_
        rw [heq]; exact hcle

/-- An empty first line has infinite `minLineDistance` to anything. -/
theorem minLineDistance_nil_left (b : List PointXY) : minLineDistance [] b = ⊤ := by
  unfold minLineDistance
  simp

/-- An empty first line has infinite angle-filtered distance too. -/
theorem minLineDistanceWithAngle_nil_left (b : List PointXY) (maxA : ℚ) :
    minLineDistanceWithAngle [] b maxA = ⊤ := by
  unfold minLineDistanceWithAngle
  split_ifs with h1 h2
  · exact minLineDistance_nil_left b
  · exact minLineDistance_nil_left b
  · exact absurd (Or.inl (by simp)) h2

/-- With an empty query polyline every candidate distance is infinite. -/
theorem candDist_nil (idx : SpatialIndex) (maxA : ℚ) (i : ℕ) :
    candDist idx [] maxA i = ⊤ :=
  minLineDistanceWithAngle_nil_left _ maxA

/-- `pass1Min` restated through the attainment lemma. -/
theorem pass1Min_attain (idx : SpatialIndex) (cands : List ℕ) (lineXY : List PointXY)
    (lineOverall : Option ℚ) (maxA maxOA : ℚ) :
    pass1Min idx cands lineXY lineOverall maxA maxOA = ⊤ ∨
    ∃ i ∈ cands, overallSkip maxOA lineOverall (idx.lines.getD i default) = false ∧
      candDist idx lineXY maxA i = pass1Min idx cands lineXY lineOverall maxA maxOA := by
  unfold pass1Min
  exact pass1_foldl_attain idx lineXY lineOverall maxA maxOA cands ⊤

/-- The pass-1 minimum of an empty query polyline is infinite. -/
theorem pass1Min_nil_lineXY (idx : SpatialIndex) (cands : List ℕ)
    (lineOverall : Option ℚ) (maxA maxOA : ℚ) :
    pass1Min idx cands [] lineOverall maxA maxOA = ⊤ := by
  rcases pass1Min_attain idx cands [] lineOverall maxA maxOA with h | ⟨i, _, _, hd⟩
  · exact h
  · rw [← hd]
    exact candDist_nil idx maxA i

/-- `pass2Best` reaches within the cutoff when some candidate is
non-skipped, within the cutoff and at finite distance. -/
theorem pass2Best_bd_le (idx : SpatialIndex) (cands : List ℕ) (lineXY : List PointXY)
    (lineOverall : Option ℚ) (maxA maxOA : ℚ) (cutoff : WithTop ℚ)
    (hex : ∃ i ∈ cands, overallSkip maxOA lineOverall (idx.lines.getD i default) = false ∧
      candDist idx lineXY maxA i ≤ cutoff ∧ candDist idx lineXY maxA i ≠ ⊤) :
    (pass2Best idx cands lineXY lineOverall maxA maxOA cutoff).bestDistance ≤ cutoff := by
  unfold pass2Best
  exact pass2_foldl_reach idx lineXY lineOverall maxA maxOA cutoff cands ⟨⊤, 255, 0⟩ rfl rfl hex

/-- `pass2Best` is minimal in the (priority, distance) order over all
eligible candidates within the cutoff. -/
theorem pass2Best_minimal (idx : SpatialIndex) (cands : List ℕ) (lineXY : List PointXY)
    (lineOverall : Option ℚ) (maxA maxOA : ℚ) (cutoff : WithTop ℚ) (i : ℕ)
    (hi : i ∈ cands)
    (hsk : overallSkip maxOA lineOverall (idx.lines.getD i default) = false)
    (hle : candDist idx lineXY maxA i ≤ cutoff) :
    (pass2Best idx cands lineXY lineOverall maxA maxOA cutoff).bestPriority <
        (idx.lines.getD i default).priority ∨
    ((pass2Best idx cands lineXY lineOverall maxA maxOA cutoff).bestPriority =
        (idx.lines.getD i default).priority ∧
     (pass2Best idx cands lineXY lineOverall maxA maxOA cutoff).bestDistance ≤
        candDist idx lineXY maxA i) := by
  unfold pass2Best
  exact pass2_foldl_minimal idx lineXY lineOverall maxA maxOA cutoff cands ⟨⊤, 255, 0⟩ i hi hsk hle

/-- Attainment for the pass-2 fold: the final state is the initial one
or is exactly the record of some non-skipped candidate within the
cutoff. -/
theorem pass2_foldl_attain (idx : SpatialIndex) (lineXY : List PointXY)
    (lineOverall : Option ℚ) (maxA maxOA : ℚ) (cutoff : WithTop ℚ) :
    ∀ (l : List ℕ) (s : Pass2State),
      l.foldl (pass2Step idx lineXY lineOverall maxA maxOA cutoff) s = s ∨
      ∃ i ∈ l, overallSkip maxOA lineOverall (idx.lines.getD i default) = false ∧
        candDist idx lineXY maxA i ≤ cutoff ∧
        l.foldl (pass2Step idx lineXY lineOverall maxA maxOA cutoff) s =
          ⟨candDist idx lineXY maxA i, (idx.lines.getD i default).priority,
           (idx.lines.getD i default).objectID⟩ := by
  intro l
  induction l with
  | nil => intro s; exact Or.inl rfl
  | cons x xs ih =>
    intro s
    simp only [List.foldl_cons]
    rcases ih (pass2Step idx lineXY lineOverall maxA maxOA cutoff s x) with
      h | ⟨i, hi, hsk, hle, heq⟩
    · rw [h]
      rcases pass2Step_cases idx lineXY lineOverall maxA maxOA cutoff s x with
        h2 | ⟨hsk, hle, heq, _⟩
      · rw [h2]; exact Or.inl rfl
      · exact Or.inr ⟨x, List.mem_cons_self x xs, hsk, hle, heq⟩
    · exact Or.inr ⟨i, List.mem_cons_of_mem x hi, hsk, hle, heq⟩

/-- `pass2Best` is the initial state or the record of some eligible
candidate within the cutoff. -/
theorem pass2Best_attain (idx : SpatialIndex) (cands : List ℕ) (lineXY : List PointXY)
    (lineOverall : Option ℚ) (maxA maxOA : ℚ) (cutoff : WithTop ℚ) :
    pass2Best idx cands lineXY lineOverall maxA maxOA cutoff = ⟨⊤, 255, 0⟩ ∨
    ∃ i ∈ cands, overallSkip maxOA lineOverall (idx.lines.getD i default) = false ∧
      candDist idx lineXY maxA i ≤ cutoff ∧
      pass2Best idx cands lineXY lineOverall maxA maxOA cutoff =
        ⟨candDist idx lineXY maxA i, (idx.lines.getD i default).priority,
         (idx.lines.getD i default).objectID⟩ := by
  unfold pass2Best
  exact pass2_foldl_attain idx lineXY lineOverall maxA maxOA cutoff cands ⟨⊤, 255, 0⟩

/-- C3: when `nearestMatch` reports a match, the returned record is an
actual eligible candidate — its priority, object id and distance are
those of some candidate that passes the overall-bearing filter with
distance within the pass-2 cutoff — and that candidate is the selected
one: its (priority, distance) is minimal, lowest priority value first
with ties broken by smallest distance, over every such candidate. -/
theorem nearestMatch_pass2_lowest_priority_then_distance
    (idx : SpatialIndex) (line : List GeoPoint) (maxD maxA maxOA bias : ℚ)
    (h : (idx.nearestMatch line maxD maxA maxOA bias).hasMatch = true) :
    (∃ i ∈ nearestCandidates idx line maxD,
      overallSkip maxOA (overallLineAngle (idx.projector.lineToXY line))
          (idx.lines.getD i default) = false ∧
      candDist idx (idx.projector.lineToXY line) maxA i ≤
          nmCutoff idx line maxD maxA maxOA bias ∧
      (idx.nearestMatch line maxD maxA maxOA bias).priority =
          (idx.lines.getD i default).priority ∧
      (idx.nearestMatch line maxD maxA maxOA bias).objectID =
          (idx.lines.getD i default).objectID ∧
      (idx.nearestMatch line maxD maxA maxOA bias).distance =
          candDist idx (idx.projector.lineToXY line) maxA i) ∧
    (∀ i ∈ nearestCandidates idx line maxD,
      overallSkip maxOA (overallLineAngle (idx.projector.lineToXY line))
          (idx.lines.getD i default) = false →
      candDist idx (idx.projector.lineToXY line) maxA i ≤
          nmCutoff idx line maxD maxA maxOA bias →
      ((idx.nearestMatch line maxD maxA maxOA bias).priority <
          (idx.lines.getD i default).priority ∨
       ((idx.nearestMatch line maxD maxA maxOA bias).priority =
          (idx.lines.getD i default).priority ∧
        (idx.nearestMatch line maxD maxA maxOA bias).distance ≤
          candDist idx (idx.projector.lineToXY line) maxA i))) := by
  revert h
  simp only [SpatialIndex.nearestMatch]
  split_ifs with h1 h2 h3 h4 h5 h6 <;> intro hM
  · simp only [] at hM
  · simp only [] at hM
  · simp only [] at hM
  · constructor
    · rcases pass2Best_attain idx (nearestCandidates idx line maxD)
          (idx.projector.lineToXY line) (overallLineAngle (idx.projector.lineToXY line))
          maxA maxOA _ with hinit | ⟨i, hi, hsk, hle, heq⟩
      · exfalso
        rw [hinit] at h5
        simp only [] at h5
        exact absurd (top_le_iff.mp h5) (WithTop.coe_ne_top)
      · refine ⟨i, hi, hsk, ?_, ?_, ?_, ?_⟩
        · simp only [nmCutoff, if_pos h4]
          exact hle
        · simp only []
          rw [heq]
        · simp only []
          rw [heq]
        · simp only []
          rw [heq]
    · intro i hi hsk hle
      simp only [nmCutoff, if_pos h4] at hle
      simp only []
      exact pass2Best_minimal idx _ _ _ maxA maxOA _ i hi hsk hle
  · simp only [] at hM
  · constructor
    · rcases pass2Best_attain idx (nearestCandidates idx line maxD)
          (idx.projector.lineToXY line) (overallLineAngle (idx.projector.lineToXY line))
          maxA maxOA _ with hinit | ⟨i, hi, hsk, hle, heq⟩
      · exfalso
        rw [hinit] at h6
        simp only [] at h6
        exact absurd (top_le_iff.mp h6) (WithTop.coe_ne_top)
      · refine ⟨i, hi, hsk, ?_, ?_, ?_, ?_⟩
        · simp only [nmCutoff, if_neg h4]
          exact hle
        · simp only []
          rw [heq]
        · simp only []
          rw [heq]
        · simp only []
          rw [heq]
    · intro i hi hsk hle
      simp only [nmCutoff, if_neg h4] at hle
      simp only []
      exact pass2Best_minimal idx _ _ _ maxA maxOA _ i hi hsk hle
  · simp only [] at hM

/-- C3 witness: in the concrete two-candidate bias scenario (11 m at
priority 2, 22 m at priority 1, bias 15) the result has priority 1 and
the object id 2 of the farther candidate, and the full selection
property holds. -/
theorem nearestMatch_pass2_lowest_priority_then_distance_witness :
    (idxM.nearestMatch queryM 30 (1/10) 1 15).priority = 1 ∧
    (idxM.nearestMatch queryM 30 (1/10) 1 15).objectID = 2 ∧
    ((∃ i ∈ nearestCandidates idxM queryM 30,
      overallSkip 1 (overallLineAngle (idxM.projector.lineToXY queryM))
          (idxM.lines.getD i default) = false ∧
      candDist idxM (idxM.projector.lineToXY queryM) (1/10) i ≤
          nmCutoff idxM queryM 30 (1/10) 1 15 ∧
      (idxM.nearestMatch queryM 30 (1/10) 1 15).priority =
          (idxM.lines.getD i default).priority ∧
      (idxM.nearestMatch queryM 30 (1/10) 1 15).objectID =
          (idxM.lines.getD i default).objectID ∧
      (idxM.nearestMatch queryM 30 (1/10) 1 15).distance =
          candDist idxM (idxM.projector.lineToXY queryM) (1/10) i) ∧
    (∀ i ∈ nearestCandidates idxM queryM 30,
      overallSkip 1 (overallLineAngle (idxM.projector.lineToXY queryM))
          (idxM.lines.getD i default) = false →
      candDist idxM (idxM.projector.lineToXY queryM) (1/10) i ≤
          nmCutoff idxM queryM 30 (1/10) 1 15 →
      ((idxM.nearestMatch queryM 30 (1/10) 1 15).priority <
          (idxM.lines.getD i default).priority ∨
       ((idxM.nearestMatch queryM 30 (1/10) 1 15).priority =
          (idxM.lines.getD i default).priority ∧
        (idxM.nearestMatch queryM 30 (1/10) 1 15).distance ≤
          candDist idxM (idxM.projector.lineToXY queryM) (1/10) i)))) :=
  ⟨by decide, by decide,
    nearestMatch_pass2_lowest_priority_then_distance idxM queryM 30 (1/10) 1 15 (by decide)⟩

/-- C4 (counterexample): with a positive priority bias, a query whose
pass-1 minimum is within `maxDistanceMeters` can still come back with
`hasMatch = false`: a lower-priority line within the biased cutoff but
beyond `maxDistanceMeters` wins pass 2 and the final defensive check
rejects it. -/
theorem nearestMatch_pass1_within_but_not_found :
    pass1Min idxM (nearestCandidates idxM queryM 15) (idxM.projector.lineToXY queryM)
        (overallLineAngle (idxM.projector.lineToXY queryM)) (1/10) 1 ≤ ((15 : ℚ) : WithTop ℚ) ∧
    (idxM.nearestMatch queryM 15 (1/10) 1 15).hasMatch = false :=
  ⟨by decide, by decide⟩

/-- C4 (amended): when the priority bias is not positive, a pass-1
minimum within `maxDistanceMeters` does guarantee a reported match. -/
theorem nearestMatch_found_of_pass1_le_of_bias_nonpos
    (idx : SpatialIndex) (line : List GeoPoint) (maxD maxA maxOA bias : ℚ)
    (hbias : bias ≤ 0)
    (h : pass1Min idx (nearestCandidates idx line maxD) (idx.projector.lineToXY line)
          (overallLineAngle (idx.projector.lineToXY line)) maxA maxOA ≤
        ((maxD : ℚ) : WithTop ℚ)) :
    (idx.nearestMatch line maxD maxA maxOA bias).hasMatch = true := by
  have hne : pass1Min idx (nearestCandidates idx line maxD) (idx.projector.lineToXY line)
      (overallLineAngle (idx.projector.lineToXY line)) maxA maxOA ≠ ⊤ := by
    intro htop
    rw [htop] at h
    exact WithTop.coe_ne_top (top_le_iff.mp h)
  have hb0 : (if bias < 0 then (0 : ℚ) else bias) = 0 := by
    split_ifs with hb
    · rfl
    · exact le_antisymm hbias (not_lt.mp hb)
  simp only [SpatialIndex.nearestMatch]
  rw [hb0]
  split_ifs with h1 h2 h3 h4
  · exfalso
    rw [List.isEmpty_iff] at h1
    rw [h1] at h hne
    exact hne (pass1Min_nil_lineXY idx _ _ maxA maxOA)
  · exfalso
    rw [List.isEmpty_iff] at h2
    rw [h2] at h
    simp [pass1Min] at h
  · exact absurd h (not_le.mpr h3)
  · rfl
  · exfalso
    refine h4 ?_
    rw [WithTop.coe_zero, add_zero]
    refine le_trans (pass2Best_bd_le idx _ _ _ maxA maxOA _ ?_) h
    rcases pass1Min_attain idx (nearestCandidates idx line maxD)
        (idx.projector.lineToXY line) (overallLineAngle (idx.projector.lineToXY line))
        maxA maxOA with hP | ⟨i, hi, hsk, hd⟩
    · exact absurd hP hne
    · exact ⟨i, hi, hsk, le_of_eq hd, by rw [hd]; exact hne⟩

/-- C4 (amended) witness. -/
theorem nearestMatch_found_of_pass1_le_of_bias_nonpos_witness :
    (idxM.nearestMatch queryM 15 (1/10) 1 0).hasMatch = true :=
  nearestMatch_found_of_pass1_le_of_bias_nonpos idxM queryM 15 (1/10) 1 0 (by decide) (by decide)

/-- The inner angle-filtered fold never increases its accumulator. -/
theorem mldwa_inner_le_init (b : List PointXY) (maxA angleA : ℚ) (p q : PointXY) :
    ∀ (l2 : List ℕ) (acc : WithTop ℚ),
      l2.foldl (fun acc2 j =>
        match segmentAngle (b.getD j default) (b.getD (j + 1) default) with
        | none => acc2
        | some angleB =>
          if maxA < angleDelta angleA angleB then acc2
          else
            let d := segmentDistance p q (b.getD j default) (b.getD (j + 1) default)
            if (d : WithTop ℚ) < acc2 then (d : WithTop ℚ) else acc2) acc ≤ acc := by
  intro l2
  induction l2 with
  | nil => intro acc; exact le_refl _
  | cons x xs ih =>
    intro acc
    simp only [List.foldl_cons]
    refine le_trans (ih _) ?_
    cases hsa : segmentAngle (b.getD x default) (b.getD (x + 1) default) with
    | none => simp only [hsa]; exact le_refl _
    | some angleB =>
      simp only [hsa]
      split_ifs with h1 h2
      · exact le_refl _
      · exact le_of_lt h2
      · exact le_refl _

/-- The inner fold is bounded by each eligible pair it scans. -/
theorem mldwa_inner_le_elem (b : List PointXY) (maxA angleA : ℚ) (p q : PointXY) :
    ∀ (l2 : List ℕ) (acc : WithTop ℚ) (j : ℕ) (angleB : ℚ), j ∈ l2 →
      segmentAngle (b.getD j default) (b.getD (j + 1) default) = some angleB →
      ¬ maxA < angleDelta angleA angleB →
      l2.foldl (fun acc2 j =>
        match segmentAngle (b.getD j default) (b.getD (j + 1) default) with
        | none => acc2
        | some angleB =>
          if maxA < angleDelta angleA angleB then acc2
          else
            let d := segmentDistance p q (b.getD j default) (b.getD (j + 1) default)
            if (d : WithTop ℚ) < acc2 then (d : WithTop ℚ) else acc2) acc ≤
        ((segmentDistance p q (b.getD j default) (b.getD (j + 1) default) : ℚ) : WithTop ℚ) := by
  intro l2
  induction l2 with
  | nil => intro acc j angleB hj; exact absurd hj (List.not_mem_nil j)
  | cons x xs ih =>
    intro acc j angleB hj hsb hang
    simp only [List.foldl_cons]
    rcases List.mem_cons.mp hj with rfl | hmem
    · refine le_trans (mldwa_inner_le_init b maxA angleA p q xs _) ?_
      simp only [hsb]
      rw [if_neg hang]
      split_ifs with h
      · exact le_refl _
      · exact not_lt.mp h
    · exact ih _ j angleB hmem hsb hang

/-- Attainment for the inner fold: the result is the initial value or
the distance of some eligible pair scanned. -/
theorem mldwa_inner_attain (b : List PointXY) (maxA angleA : ℚ) (p q : PointXY) :
    ∀ (l2 : List ℕ) (acc : WithTop ℚ),
      l2.foldl (fun acc2 j =>
        match segmentAngle (b.getD j default) (b.getD (j + 1) default) with
        | none => acc2
        | some angleB =>
          if maxA < angleDelta angleA angleB then acc2
          else
            let d := segmentDistance p q (b.getD j default) (b.getD (j + 1) default)
            if (d : WithTop ℚ) < acc2 then (d : WithTop ℚ) else acc2) acc = acc ∨
      ∃ j ∈ l2, ∃ angleB : ℚ,
        segmentAngle (b.getD j default) (b.getD (j + 1) default) = some angleB ∧
        ¬ maxA < angleDelta angleA angleB ∧
        l2.foldl (fun acc2 j =>
          match segmentAngle (b.getD j default) (b.getD (j + 1) default) with
          | none => acc2
          | some angleB =>
            if maxA < angleDelta angleA angleB then acc2
            else
              let d := segmentDistance p q (b.getD j default) (b.getD (j + 1) default)
              if (d : WithTop ℚ) < acc2 then (d : WithTop ℚ) else acc2) acc =
          ((segmentDistance p q (b.getD j default) (b.getD (j + 1) default) : ℚ) : WithTop ℚ) := by
  intro l2
  induction l2 with
  | nil => intro acc; exact Or.inl rfl
  | cons x xs ih =>
    intro acc
    simp only [List.foldl_cons]
    rcases ih ((fun acc2 j =>
        match segmentAngle (b.getD j default) (b.getD (j + 1) default) with
        | none => acc2
        | some angleB =>
          if maxA < angleDelta angleA angleB then acc2
          else
            let d := segmentDistance p q (b.getD j default) (b.getD (j + 1) default)
            if (d : WithTop ℚ) < acc2 then (d : WithTop ℚ) else acc2) acc x) with h | h
    · rw [h]
      cases hsa : segmentAngle (b.getD x default) (b.getD (x + 1) default) with
      | none => simp only [hsa]; exact Or.inl trivial
      | some angleB =>
        simp only [hsa]
        by_cases hang : maxA < angleDelta angleA angleB
        · rw [if_pos hang]; exact Or.inl rfl
        · rw [if_neg hang]
          by_cases hlt :
              ((segmentDistance p q (b.getD x default) (b.getD (x + 1) default) : ℚ) :
                WithTop ℚ) < acc
          · rw [if_pos hlt]
            exact Or.inr ⟨x, List.mem_cons_self x xs, angleB, hsa, hang, rfl⟩
          · rw [if_neg hlt]; exact Or.inl rfl
    · rcases h with ⟨j, hj, angleB, hsb, hang, hd⟩
      exact Or.inr ⟨j, List.mem_cons_of_mem x hj, angleB, hsb, hang, hd⟩

/-- The outer angle-filtered fold never increases its accumulator. -/
theorem mldwa_outer_le_init (a b : List PointXY) (maxA : ℚ) :
    ∀ (l1 : List ℕ) (acc : WithTop ℚ),
      l1.foldl (fun acc i =>
        match segmentAngle (a.getD i default) (a.getD (i + 1) default) with
        | none => acc
        | some angleA =>
          (List.range (b.length - 1)).foldl
            (fun acc2 j =>
              match segmentAngle (b.getD j default) (b.getD (j + 1) default) with
              | none => acc2
              | some angleB =>
                if maxA < angleDelta angleA angleB then acc2
                else
                  let d := segmentDistance (a.getD i default) (a.getD (i + 1) default)
                    (b.getD j default) (b.getD (j + 1) default)
                  if (d : WithTop ℚ) < acc2 then (d : WithTop ℚ) else acc2)
            acc) acc ≤ acc := by
  intro l1
  induction l1 with
  | nil => intro acc; exact le_refl _
  | cons x xs ih =>
    intro acc
    simp only [List.foldl_cons]
    refine le_trans (ih _) ?_
    cases hsa : segmentAngle (a.getD x default) (a.getD (x + 1) default) with
    | none => simp only [hsa]; exact le_refl _
    | some angleA =>
      simp only [hsa]
      exact mldwa_inner_le_init b maxA angleA (a.getD x default) (a.getD (x + 1) default) _ acc

/-- The outer fold is bounded by each eligible pair it scans. -/
theorem mldwa_outer_le_elem (a b : List PointXY) (maxA : ℚ) :
    ∀ (l1 : List ℕ) (acc : WithTop ℚ) (i : ℕ) (angleA : ℚ), i ∈ l1 →
      segmentAngle (a.getD i default) (a.getD (i + 1) default) = some angleA →
      ∀ (j : ℕ) (angleB : ℚ), j ∈ List.range (b.length - 1) →
        segmentAngle (b.getD j default) (b.getD (j + 1) default) = some angleB →
        ¬ maxA < angleDelta angleA angleB →
        l1.foldl (fun acc i =>
          match segmentAngle (a.getD i default) (a.getD (i + 1) default) with
          | none => acc
          | some angleA =>
            (List.range (b.length - 1)).foldl
              (fun acc2 j =>
                match segmentAngle (b.getD j default) (b.getD (j + 1) default) with
                | none => acc2
                | some angleB =>
                  if maxA < angleDelta angleA angleB then acc2
                  else
                    let d := segmentDistance (a.getD i default) (a.getD (i + 1) default)
                      (b.getD j default) (b.getD (j + 1) default)
                    if (d : WithTop ℚ) < acc2 then (d : WithTop ℚ) else acc2)
              acc) acc ≤
          ((segmentDistance (a.getD i default) (a.getD (i + 1) default)
            (b.getD j default) (b.getD (j + 1) default) : ℚ) : WithTop ℚ) := by
  intro l1
  induction l1 with
  | nil => intro acc i angleA hi; exact absurd hi (List.not_mem_nil i)
  | cons x xs ih =>
    intro acc i angleA hi hsa j angleB hj hsb hang
    simp only [List.foldl_cons]
    rcases List.mem_cons.mp hi with rfl | hmem
    · refine le_trans (mldwa_outer_le_init a b maxA xs _) ?_
      simp only [hsa]
      exact mldwa_inner_le_elem b maxA angleA (a.getD i default) (a.getD (i + 1) default)
        _ acc j angleB hj hsb hang
    · exact ih _ i angleA hmem hsa j angleB hj hsb hang

/-- Attainment for the outer fold. -/
theorem mldwa_outer_attain (a b : List PointXY) (maxA : ℚ) :
    ∀ (l1 : List ℕ) (acc : WithTop ℚ),
      l1.foldl (fun acc i =>
        match segmentAngle (a.getD i default) (a.getD (i + 1) default) with
        | none => acc
        | some angleA =>
          (List.range (b.length - 1)).foldl
            (fun acc2 j =>
              match segmentAngle (b.getD j default) (b.getD (j + 1) default) with
              | none => acc2
              | some angleB =>
                if maxA < angleDelta angleA angleB then acc2
                else
                  let d := segmentDistance (a.getD i default) (a.getD (i + 1) default)
                    (b.getD j default) (b.getD (j + 1) default)
                  if (d : WithTop ℚ) < acc2 then (d : WithTop ℚ) else acc2)
            acc) acc = acc ∨
      ∃ i ∈ l1, ∃ angleA : ℚ,
        segmentAngle (a.getD i default) (a.getD (i + 1) default) = some angleA ∧
        ∃ j ∈ List.range (b.length - 1), ∃ angleB : ℚ,
          segmentAngle (b.getD j default) (b.getD (j + 1) default) = some angleB ∧
          ¬ maxA < angleDelta angleA angleB ∧
          l1.foldl (fun acc i =>
            match segmentAngle (a.getD i default) (a.getD (i + 1) default) with
            | none => acc
            | some angleA =>
              (List.range (b.length - 1)).foldl
                (fun acc2 j =>
                  match segmentAngle (b.getD j default) (b.getD (j + 1) default) with
                  | none => acc2
                  | some angleB =>
                    if maxA < angleDelta angleA angleB then acc2
                    else
                      let d := segmentDistance (a.getD i default) (a.getD (i + 1) default)
                        (b.getD j default) (b.getD (j + 1) default)
                      if (d : WithTop ℚ) < acc2 then (d : WithTop ℚ) else acc2)
                acc) acc =
            ((segmentDistance (a.getD i default) (a.getD (i + 1) default)
              (b.getD j default) (b.getD (j + 1) default) : ℚ) : WithTop ℚ) := by
  intro l1
  induction l1 with
  | nil => intro acc; exact Or.inl rfl
  | cons x xs ih =>
    intro acc
    simp only [List.foldl_cons]
    rcases ih ((fun acc i =>
        match segmentAngle (a.getD i default) (a.getD (i + 1) default) with
        | none => acc
        | some angleA =>
          (List.range (b.length - 1)).foldl
            (fun acc2 j =>
              match segmentAngle (b.getD j default) (b.getD (j + 1) default) with
              | none => acc2
              | some angleB =>
                if maxA < angleDelta angleA angleB then acc2
                else
                  let d := segmentDistance (a.getD i default) (a.getD (i + 1) default)
                    (b.getD j default) (b.getD (j + 1) default)
                  if (d : WithTop ℚ) < acc2 then (d : WithTop ℚ) else acc2)
            acc) acc x) with h | ⟨i, hi, angleA, hsa, j, hj, angleB, hsb, hang, hd⟩
    · rw [h]
      cases hsa : segmentAngle (a.getD x default) (a.getD (x + 1) default) with
      | none => simp only [hsa]; exact Or.inl trivial
      | some angleA =>
        simp only [hsa]
        rcases mldwa_inner_attain b maxA angleA (a.getD x default) (a.getD (x + 1) default)
            (List.range (b.length - 1)) acc with hin | ⟨j, hj, angleB, hsb, hang, hd⟩
        · exact Or.inl hin
        · exact Or.inr ⟨x, List.mem_cons_self x xs, angleA, hsa, j, hj, angleB, hsb, hang, hd⟩
    · exact Or.inr ⟨i, List.mem_cons_of_mem x hi, angleA, hsa, j, hj, angleB, hsb, hang, hd⟩

/-- Introduction form for `eligiblePairDists` membership. -/
theorem mem_eligiblePairDists (a b : List PointXY) (maxA : ℚ) (i j : ℕ)
    (angleA angleB : ℚ)
    (hi : i ∈ List.range (a.length - 1)) (hj : j ∈ List.range (b.length - 1))
    (hsa : segmentAngle (a.getD i default) (a.getD (i + 1) default) = some angleA)
    (hsb : segmentAngle (b.getD j default) (b.getD (j + 1) default) = some angleB)
    (hang : ¬ maxA < angleDelta angleA angleB) :
    segmentDistance (a.getD i default) (a.getD (i + 1) default)
      (b.getD j default) (b.getD (j + 1) default) ∈ eligiblePairDists a b maxA := by
  unfold eligiblePairDists
  refine List.mem_flatMap.mpr ⟨i, hi, ?_⟩
  refine List.mem_filterMap.mpr ⟨j, hj, ?_⟩
  simp only [hsa, hsb]
  rw [if_neg hang]

/-- Elimination form for `eligiblePairDists` membership. -/
theorem of_mem_eligiblePairDists (a b : List PointXY) (maxA : ℚ) (d : ℚ)
    (hd : d ∈ eligiblePairDists a b maxA) :
    ∃ i ∈ List.range (a.length - 1), ∃ j ∈ List.range (b.length - 1),
      ∃ angleA angleB : ℚ,
        segmentAngle (a.getD i default) (a.getD (i + 1) default) = some angleA ∧
        segmentAngle (b.getD j default) (b.getD (j + 1) default) = some angleB ∧
        ¬ maxA < angleDelta angleA angleB ∧
        d = segmentDistance (a.getD i default) (a.getD (i + 1) default)
          (b.getD j default) (b.getD (j + 1) default) := by
  unfold eligiblePairDists at hd
  rcases List.mem_flatMap.mp hd with ⟨i, hi, hmem⟩
  rcases List.mem_filterMap.mp hmem with ⟨j, hj, hj2⟩
  cases hsa : segmentAngle (a.getD i default) (a.getD (i + 1) default) with
  | none => rw [hsa] at hj2; exact absurd hj2 (by simp)
  | some angleA =>
    cases hsb : segmentAngle (b.getD j default) (b.getD (j + 1) default) with
    | none => rw [hsa, hsb] at hj2; exact absurd hj2 (by simp)
    | some angleB =>
      rw [hsa, hsb] at hj2
      simp only [] at hj2
      split_ifs at hj2 with hang
      exact ⟨i, hi, j, hj, angleA, angleB, hsa, hsb, hang, (Option.some_inj.mp hj2).symm⟩

/-- C1 (counterexample): a query made of one zero-length segment, at
`segmentDistance` 1 from the candidate, with `maxSegmentAngle = 1 > 0`:
the pair's bearing is undefined, the pair is skipped outright, and the
computed distance is `⊤` — strictly larger than that pair's
`segmentDistance`. -/
theorem minLineDistanceWithAngle_zero_length_pair_dropped :
    segmentAngle (⟨0, 0⟩ : PointXY) ⟨0, 0⟩ = none ∧
    segmentDistance (⟨0, 0⟩ : PointXY) ⟨0, 0⟩ ⟨0, 1⟩ ⟨1, 1⟩ = 1 ∧
    minLineDistanceWithAngle [⟨0, 0⟩, ⟨0, 0⟩] [⟨0, 1⟩, ⟨1, 1⟩] 1 = ⊤ ∧
    ¬ minLineDistanceWithAngle [⟨0, 0⟩, ⟨0, 0⟩] [⟨0, 1⟩, ⟨1, 1⟩] 1 ≤
        ((segmentDistance (⟨0, 0⟩ : PointXY) ⟨0, 0⟩ ⟨0, 1⟩ ⟨1, 1⟩ : ℚ) : WithTop ℚ) := by
  decide

/-- C1 (amended): for `maxSegmentAngle > 0` and genuine polylines, the
angle-filtered distance is exactly the minimum over the pairs the spec
calls eligible — both bearings defined and delta within the limit:
it is a lower bound of `eligiblePairDists` and is attained on it
unless no pair is eligible. -/
theorem minLineDistanceWithAngle_min_eligible_pairs (a b : List PointXY) (maxA : ℚ)
    (hA : 0 < maxA) (ha : 2 ≤ a.length) (hb : 2 ≤ b.length) :
    (∀ d ∈ eligiblePairDists a b maxA,
      minLineDistanceWithAngle a b maxA ≤ ((d : ℚ) : WithTop ℚ)) ∧
    (minLineDistanceWithAngle a b maxA = ⊤ ∨
     ∃ d ∈ eligiblePairDists a b maxA,
       minLineDistanceWithAngle a b maxA = ((d : ℚ) : WithTop ℚ)) := by
  constructor
  · intro d hd
    rcases of_mem_eligiblePairDists a b maxA d hd with
      ⟨i, hi, j, hj, angleA, angleB, hsa, hsb, hang, rfl⟩
    unfold minLineDistanceWithAngle
    rw [if_neg (not_le.mpr hA), if_neg (by omega : ¬(a.length < 2 ∨ b.length < 2))]
    exact mldwa_outer_le_elem a b maxA (List.range (a.length - 1)) ⊤ i angleA
      (by rwa [List.mem_range] at hi ⊢) hsa j angleB hj hsb hang
  · unfold minLineDistanceWithAngle
    rw [if_neg (not_le.mpr hA), if_neg (by omega : ¬(a.length < 2 ∨ b.length < 2))]
    rcases mldwa_outer_attain a b maxA (List.range (a.length - 1)) ⊤ with
      h | ⟨i, hi, angleA, hsa, j, hj, angleB, hsb, hang, hd⟩
    · exact Or.inl h
    · exact Or.inr ⟨_, mem_eligiblePairDists a b maxA i j angleA angleB hi hj hsa hsb hang, hd⟩

/-- C1 (amended) witness. -/
theorem minLineDistanceWithAngle_min_eligible_pairs_witness :
    (∀ d ∈ eligiblePairDists [⟨0, 0⟩, ⟨1, 0⟩] [⟨0, 1⟩, ⟨1, 1⟩] 1,
      minLineDistanceWithAngle [⟨0, 0⟩, ⟨1, 0⟩] [⟨0, 1⟩, ⟨1, 1⟩] 1 ≤ ((d : ℚ) : WithTop ℚ)) ∧
    (minLineDistanceWithAngle [⟨0, 0⟩, ⟨1, 0⟩] [⟨0, 1⟩, ⟨1, 1⟩] 1 = ⊤ ∨
     ∃ d ∈ eligiblePairDists [⟨0, 0⟩, ⟨1, 0⟩] [⟨0, 1⟩, ⟨1, 1⟩] 1,
       minLineDistanceWithAngle [⟨0, 0⟩, ⟨1, 0⟩] [⟨0, 1⟩, ⟨1, 1⟩] 1 = ((d : ℚ) : WithTop ℚ)) :=
  minLineDistanceWithAngle_min_eligible_pairs [⟨0, 0⟩, ⟨1, 0⟩] [⟨0, 1⟩, ⟨1, 1⟩] 1
    (by decide) (by decide) (by decide)

/-- When `nearestMatch` reports no match, it returns the zero result. -/
theorem nearestMatch_not_found_default (idx : SpatialIndex) (line : List GeoPoint)
    (maxD maxA maxOA bias : ℚ)
    (h : (idx.nearestMatch line maxD maxA maxOA bias).hasMatch = false) :
    idx.nearestMatch line maxD maxA maxOA bias = {} := by
  revert h
  simp only [SpatialIndex.nearestMatch]
  split_ifs <;> intro hM
  · rfl
  · rfl
  · rfl
  · exact hM.elim
  · rfl
  · exact hM.elim
  · rfl

/-- `bikeFinish` with `found = false`: the `WINT_LOS` fallback decides
everything — some valid code emits with that priority and the bike
source tag, no valid code drops the feature. -/
theorem bikeFinish_not_found (props : Props) (ls : List GeoPoint) (title : String)
    (titleFromType : Bool) (twIdx : SpatialIndex) (twTitles : List (ℤ × String))
    (mm ma moa : ℚ) (priority : Fin 256) (travelwayID : ℤ) (sourceDataset : Fin 256) :
    (∀ p, priorityFromWintLOS props.wintLOS = some p →
      ∃ ttl, bikeFinish props ls title titleFromType twIdx twTitles mm ma moa
        priority travelwayID false sourceDataset =
          some { title := ttl, priority := p, coords := ls, sourceDataset := datasetBike }) ∧
    (priorityFromWintLOS props.wintLOS = none →
      bikeFinish props ls title titleFromType twIdx twTitles mm ma moa
        priority travelwayID false sourceDataset = none) := by
  constructor
  · intro p hw
    unfold bikeFinish
    rw [hw]
    exact ⟨_, rfl⟩
  · intro hw
    unfold bikeFinish
    rw [hw]
    rfl

/-- C5 (counterexample): a protected bicycle-route feature whose
no-plow query *does* find a match within the thresholds — but the
matched no-plow way carries `OBJECTID` 0 — is not excluded: it is
emitted with the plowed travelway's priority. -/
theorem bikeFeatureStep_noplow_match_zero_id_not_excluded :
    (noPlowIdx0.nearestMatch [⟨0, 0⟩, ⟨111 * uDeg, 0⟩] 30 (1/10) 1 0).hasMatch = true ∧
    bikeFeatureStep [] twIdxM [] (some noPlowIdx0) iceIdxFar 30 (1/10) 1 0 bikeFProt =
      .ok (some { title := "Trail", priority := 1, coords := [⟨0, 0⟩, ⟨111 * uDeg, 0⟩],
                  sourceDataset := datasetTravelways }) :=
  ⟨by decide, by decide⟩

/-- C5 (amended): the exclusion is keyed on the matched no-plow way's
object id being non-zero, not on the match flag: a protected feature
whose no-plow query returns a non-zero object id is excluded,
regardless of any travelways match. -/
theorem bikeFeatureStep_excluded_of_noplow_nonzero_id
    (titles : TitleNormalizer) (twIdx : SpatialIndex) (twTitles : List (ℤ × String))
    (npi iceIdx : SpatialIndex) (mm ma moa bias : ℚ) (f : GeoFeature) (ls : List GeoPoint)
    (hnp : isNotPlowed f.props = false)
    (hfl : flattenLineString f.geometry = .ok (some ls))
    (hprot : isProtectedBike f.props = true)
    (hid : (npi.nearestMatch ls mm ma moa 0).objectID ≠ 0) :
    bikeFeatureStep titles twIdx twTitles (some npi) iceIdx mm ma moa bias f = .ok none := by
  unfold bikeFeatureStep
  dsimp only
  rw [hnp]
  simp only [Bool.false_eq_true, if_false]
  rw [hfl]
  simp only []
  rw [if_pos hprot]
  rw [if_pos hid]

/-- C5 (amended) witness. -/
theorem bikeFeatureStep_excluded_of_noplow_nonzero_id_witness :
    bikeFeatureStep [] twIdxM [] (some noPlowIdx5) iceIdxFar 30 (1/10) 1 0 bikeFProt =
      .ok none :=
  bikeFeatureStep_excluded_of_noplow_nonzero_id [] twIdxM [] noPlowIdx5 iceIdxFar
    30 (1/10) 1 0 bikeFProt [⟨0, 0⟩, ⟨111 * uDeg, 0⟩] (by decide) (by decide) (by decide)
    (by decide)

/-- C6: for a feature that is not excluded earlier (plowed, valid
non-empty geometry, no non-zero-id no-plow match if protected) and for
which the relevant index query (travelways if protected, ice routes
otherwise) found no match, the `WINT_LOS` fallback decides the
outcome: a valid declared code (1–3) emits the feature with that
priority and the bike source tag, and otherwise the feature is
dropped. -/
theorem bikeFeatureStep_fallback_wintlos
    (titles : TitleNormalizer) (twIdx : SpatialIndex) (twTitles : List (ℤ × String))
    (npIdx : Option SpatialIndex) (iceIdx : SpatialIndex)
    (mm ma moa bias : ℚ) (f : GeoFeature) (ls : List GeoPoint)
    (hnp : isNotPlowed f.props = false)
    (hfl : flattenLineString f.geometry = .ok (some ls))
    (hnm : (isProtectedBike f.props = true ∧
        (∀ npi, npIdx = some npi → (npi.nearestMatch ls mm ma moa 0).objectID = 0) ∧
        (twIdx.nearestMatch ls mm ma moa bias).hasMatch = false) ∨
      (isProtectedBike f.props = false ∧
        (iceIdx.nearestMatch ls mm ma moa bias).hasMatch = false)) :
    (∀ p, priorityFromWintLOS f.props.wintLOS = some p →
      ∃ ttl, bikeFeatureStep titles twIdx twTitles npIdx iceIdx mm ma moa bias f =
        .ok (some { title := ttl, priority := p, coords := ls,
                    sourceDataset := datasetBike })) ∧
    (priorityFromWintLOS f.props.wintLOS = none →
      bikeFeatureStep titles twIdx twTitles npIdx iceIdx mm ma moa bias f = .ok none) := by
  have hred : bikeFeatureStep titles twIdx twTitles npIdx iceIdx mm ma moa bias f =
      .ok (bikeFinish f.props ls (bikeTitle f.props titles).1 (bikeTitle f.props titles).2
        twIdx twTitles mm ma moa 0 0 false 0) := by
    unfold bikeFeatureStep
    dsimp only
    rw [hnp]
    simp only [Bool.false_eq_true, if_false]
    rw [hfl]
    simp only []
    rcases hnm with ⟨hprot, hoid, htw⟩ | ⟨hprot, hice⟩
    · rw [if_pos hprot]
      cases npIdx with
      | none =>
        simp only []
        rw [if_neg (fun hc => hc rfl)]
        rw [nearestMatch_not_found_default twIdx ls mm ma moa bias htw]
        rfl
      | some npi =>
        simp only [hoid npi rfl]
        rw [if_neg (fun hc => hc rfl)]
        rw [nearestMatch_not_found_default twIdx ls mm ma moa bias htw]
        rfl
    · rw [if_neg (by rw [hprot]; exact Bool.false_ne_true)]
      rw [nearestMatch_not_found_default iceIdx ls mm ma moa bias hice]
      rfl
  constructor
  · intro p hw
    rcases (bikeFinish_not_found f.props ls (bikeTitle f.props titles).1
        (bikeTitle f.props titles).2 twIdx twTitles mm ma moa 0 0 0).1 p hw with ⟨ttl, hfin⟩
    exact ⟨ttl, by rw [hred, hfin]⟩
  · intro hw
    rw [hred, (bikeFinish_not_found f.props ls (bikeTitle f.props titles).1
        (bikeTitle f.props titles).2 twIdx twTitles mm ma moa 0 0 0).2 hw]

/-- C6 witness. -/
theorem bikeFeatureStep_fallback_wintlos_witness :
    (∀ p, priorityFromWintLOS bikeFUnprot.props.wintLOS = some p →
      ∃ ttl, bikeFeatureStep [] twIdxM [] (some noPlowIdx5) iceIdxFar 30 (1/10) 1 0
          bikeFUnprot =
        .ok (some { title := ttl, priority := p, coords := [⟨0, 0⟩, ⟨111 * uDeg, 0⟩],
                    sourceDataset := datasetBike })) ∧
    (priorityFromWintLOS bikeFUnprot.props.wintLOS = none →
      bikeFeatureStep [] twIdxM [] (some noPlowIdx5) iceIdxFar 30 (1/10) 1 0 bikeFUnprot =
        .ok none) :=
  bikeFeatureStep_fallback_wintlos [] twIdxM [] (some noPlowIdx5) iceIdxFar 30 (1/10) 1 0
    bikeFUnprot [⟨0, 0⟩, ⟨111 * uDeg, 0⟩] (by decide) (by decide)
    (Or.inr ⟨by decide, by decide⟩)

/-- `floorQ` agrees with the mathematical floor. -/
theorem floorQ_eq_floor (q : ℚ) : floorQ q = ⌊q⌋ := by
  rw [Rat.floor_def, floorQ, Int.fdiv_eq_ediv _ (Int.ofNat_nonneg q.den)]

/-- `absQ` bounds unfold to a two-sided bound. -/
theorem absQ_le_iff (a b : ℚ) : absQ a ≤ b ↔ -b ≤ a ∧ a ≤ b := by
  unfold absQ
  split_ifs with h
  · constructor
    · intro hb; constructor <;> linarith
    · intro hb; linarith [hb.1]
  · constructor
    · intro hb; constructor <;> linarith
    · intro hb; exact hb.2

/-- `math.Round` is within a half of its argument. -/
theorem roundGo_sub_le (q : ℚ) : absQ ((roundGo q : ℚ) - q) ≤ 1 / 2 := by
  unfold roundGo
  rw [absQ_le_iff]
  split_ifs with h
  · rw [floorQ_eq_floor]
    have h1 := Int.floor_le (q + 1 / 2)
    have h2 := Int.lt_floor_add_one (q + 1 / 2)
    constructor <;> [linarith; linarith]
  · rw [floorQ_eq_floor]
    push_cast
    have h1 := Int.floor_le (-q + 1 / 2)
    have h2 := Int.lt_floor_add_one (-q + 1 / 2)
    constructor <;> [linarith; linarith]

/-- `math.Round` (half away from zero) is monotone. -/
theorem roundGo_mono {a b : ℚ} (h : a ≤ b) : roundGo a ≤ roundGo b := by
  unfold roundGo
  split_ifs with ha hb hb
  · rw [floorQ_eq_floor, floorQ_eq_floor]
    exact Int.floor_le_floor (by linarith)
  · linarith
  · rw [floorQ_eq_floor, floorQ_eq_floor]
    have hl : 0 ≤ ⌊-a + 1 / 2⌋ := Int.floor_nonneg.mpr (by linarith)
    have hr : 0 ≤ ⌊b + 1 / 2⌋ := Int.floor_nonneg.mpr (by linarith)
    omega
  · rw [floorQ_eq_floor, floorQ_eq_floor]
    exact neg_le_neg (Int.floor_le_floor (by linarith))

/-- Reconstructing a coordinate from its unwrapped scaled delta is
accurate to within 1e-6. -/
theorem coord_acc (base v : ℚ) :
    absQ ((base + ((coordDelta base v : ℤ) : ℚ) / 1000000) - v) ≤ 1 / 1000000 := by
  unfold coordDelta
  have h := roundGo_sub_le ((v - base) * 1000000)
  rw [absQ_le_iff] at h ⊢
  constructor <;> [linarith [h.1]; linarith [h.2]]

/-- An in-range int32 wraps to itself. -/
theorem wrap32_eq_self {z : ℤ} (h1 : -2147483648 ≤ z) (h2 : z ≤ 2147483647) :
    wrap32 z = z := by
  unfold wrap32
  omega

/-- `uint8` round trip. -/
theorem rdU8_u8T (n : ℕ) (r : List Tok) (h : n < 256) : rdU8 (u8T n ++ r) = some (n, r) := by
  unfold u8T rdU8
  simp only [List.cons_append, List.nil_append, Nat.mod_eq_of_lt h]

/-- `uint16` round trip. -/
theorem rdU16_u16T (n : ℕ) (r : List Tok) (h : n < 65536) :
    rdU16 (u16T n ++ r) = some (n, r) := by
  unfold u16T rdU16
  simp only [List.cons_append, List.nil_append]
  have : n % 256 + 256 * (n / 256 % 256) = n := by omega
  rw [this]

/-- `uint32` round trip. -/
theorem rdU32_u32T (n : ℕ) (r : List Tok) (h : n < 4294967296) :
    rdU32 (u32T n ++ r) = some (n, r) := by
  unfold u32T rdU32
  simp only [List.cons_append, List.nil_append]
  have : n % 256 + 256 * (n / 256 % 256) + 65536 * (n / 65536 % 256) +
      16777216 * (n / 16777216 % 256) = n := by omega
  rw [this]

/-- `int32` round trip: the decoder reads back the wrapped value. -/
theorem rdI32_i32T (z : ℤ) (r : List Tok) : rdI32 (i32T z ++ r) = some (wrap32 z, r) := by
  unfold i32T rdI32
  have h0 : (0 : ℤ) ≤ z % 4294967296 := Int.emod_nonneg z (by norm_num)
  have h1 : z % 4294967296 < 4294967296 := Int.emod_lt_of_pos z (by norm_num)
  have hu : ((z % 4294967296).toNat : ℤ) = z % 4294967296 := Int.toNat_of_nonneg h0
  rw [rdU32_u32T _ r (by omega)]
  simp only [Option.map_some']
  have : (if (z % 4294967296).toNat < 2147483648 then ((z % 4294967296).toNat : ℤ)
      else ((z % 4294967296).toNat : ℤ) - 4294967296) = wrap32 z := by
    unfold wrap32
    split_ifs with hc <;> omega
  rw [this]

/-- `float64` token round trip. -/
theorem rdF64_f64T (q : ℚ) (r : List Tok) : rdF64 (f64T q ++ r) = some (q, r) := rfl

/-- Raw byte run round trip. -/
theorem rdBytes_map (l : List ℕ) : ∀ r : List Tok,
    rdBytes l.length (l.map Tok.byte ++ r) = some (l, r) := by
  induction l with
  | nil => intro r; rfl
  | cons b bs ih =>
    intro r
    simp only [List.map_cons, List.length_cons, List.cons_append, rdBytes, List.append_eq]
    rw [ih]
    rfl

/-- The successor-step equation of `rdCoords`. -/
theorem rdCoords_succ (b1 b2 : ℚ) (n : ℕ) (s : List Tok) :
    rdCoords b1 b2 (n + 1) s = do
      let (dLon, s) ← rdI32 s
      let (dLat, s) ← rdI32 s
      let (cs, s) ← rdCoords b1 b2 n s
      return (⟨b1 + (dLon : ℚ) / 1000000, b2 + (dLat : ℚ) / 1000000⟩ :: cs, s) := rfl

/-- Coordinate list round trip: the decoder reconstructs exactly the
`decCoord` images. -/
theorem rdCoords_flatMap (baseLon baseLat : ℚ) :
    ∀ (cs : List GeoPoint) (r : List Tok),
      rdCoords baseLon baseLat cs.length
        ((cs.flatMap fun c =>
          i32T (coordDelta baseLon c.lon) ++ i32T (coordDelta baseLat c.lat)) ++ r) =
      some (cs.map (decCoord baseLon baseLat), r) := by
  intro cs
  induction cs with
  | nil => intro r; rfl
  | cons c cs ih =>
    intro r
    simp only [List.flatMap_cons, List.map_cons, List.length_cons]
    rw [List.append_assoc, List.append_assoc]
    rw [rdCoords_succ]
    rw [rdI32_i32T]
    simp only [Option.pure_def, Option.bind_eq_bind, Option.some_bind]
    rw [rdI32_i32T]
    simp only [Option.some_bind]
    rw [ih]
    simp only [Option.some_bind]
    rfl

/-- The cons-step equation of `mapME`. -/
theorem mapME_cons {α β : Type} (g : α → Except String β) (x : α) (xs : List α) :
    mapME g (x :: xs) = do
      let y ← g x
      let ys ← mapME g xs
      return y :: ys := rfl

/-- Destructuring a successful `mapME` over a cons. -/
theorem mapME_ok_cons {α β : Type} (g : α → Except String β) (x : α) (xs : List α)
    (bs : List β) (h : mapME g (x :: xs) = .ok bs) :
    ∃ y ys, g x = .ok y ∧ mapME g xs = .ok ys ∧ bs = y :: ys := by
  rw [mapME_cons] at h
  cases hgx : g x with
  | error e => rw [hgx] at h; exact absurd h (by simp [Bind.bind, Except.bind])
  | ok y =>
    rw [hgx] at h
    cases hm : mapME g xs with
    | error e => rw [hm] at h; exact absurd h (by simp [Bind.bind, Except.bind])
    | ok ys =>
      rw [hm] at h
      exact ⟨y, ys, rfl, rfl, (Except.ok.inj h).symm⟩

/-- Feature record round trip. -/
theorem rdFeature_enc (baseLon baseLat : ℚ) (f : LineFeature) (toks r : List Tok)
    (henc : encodeFeatureTok baseLon baseLat f = .ok toks) :
    rdFeature baseLon baseLat (toks ++ r) = some (decFeature baseLon baseLat f, r) := by
  unfold encodeFeatureTok at henc
  dsimp only at henc
  split_ifs at henc with h1 h2
  have htoks := (Except.ok.inj henc).symm
  subst htoks
  unfold rdFeature
  simp only [List.append_assoc]
  rw [rdU8_u8T _ _ (by omega)]
  simp only [Option.pure_def, Option.bind_eq_bind, Option.some_bind]
  rw [rdBytes_map]
  simp only [Option.some_bind]
  rw [rdU8_u8T _ _ f.priority.isLt]
  simp only [Option.some_bind]
  rw [rdU8_u8T _ _ f.sourceDataset.isLt]
  simp only [Option.some_bind]
  rw [rdU16_u16T _ _ (by omega)]
  simp only [Option.some_bind]
  rw [rdCoords_flatMap]
  simp only [Option.some_bind]
  rfl

/-- The successor-step equation of `rdFeatures`. -/
theorem rdFeatures_succ (b1 b2 : ℚ) (n : ℕ) (s : List Tok) :
    rdFeatures b1 b2 (n + 1) s = do
      let (f, s) ← rdFeature b1 b2 s
      let (fs, s) ← rdFeatures b1 b2 n s
      return (f :: fs, s) := rfl

/-- Feature list round trip against a successful `mapME` encode. -/
theorem rdFeatures_enc (baseLon baseLat : ℚ) :
    ∀ (fs : List LineFeature) (bodies : List (List Tok)) (r : List Tok),
      mapME (encodeFeatureTok baseLon baseLat) fs = .ok bodies →
      rdFeatures baseLon baseLat fs.length (bodies.flatten ++ r) =
        some (fs.map (decFeature baseLon baseLat), r) := by
  intro fs
  induction fs with
  | nil =>
    intro bodies r h
    cases (Except.ok.inj h)
    rfl
  | cons f fs ih =>
    intro bodies r h
    rcases mapME_ok_cons _ f fs bodies h with ⟨toks, rest, henc, hm, rfl⟩
    simp only [List.flatten_cons, List.length_cons, List.map_cons, List.append_assoc]
    rw [rdFeatures_succ]
    rw [rdFeature_enc baseLon baseLat f toks _ henc]
    simp only [Option.pure_def, Option.bind_eq_bind, Option.some_bind]
    rw [ih rest r hm]
    simp only [Option.some_bind]

/-- Segment round trip: the box deltas are discarded, the features are
reconstructed. -/
theorem rdSegment_enc (baseLon baseLat : ℚ) (feats : List LineFeature) (toks r : List Tok)
    (hlen : feats.length < 4294967296)
    (henc : encodeSegmentTok baseLon baseLat feats = .ok toks) :
    rdSegment baseLon baseLat (toks ++ r) =
      some (feats.map (decFeature baseLon baseLat), r) := by
  unfold encodeSegmentTok at henc
  cases hm : mapME (encodeFeatureTok baseLon baseLat) feats with
  | error e => rw [hm] at henc; exact absurd henc (by simp [Bind.bind, Except.bind])
  | ok body =>
    rw [hm] at henc
    have htoks := (Except.ok.inj henc).symm
    subst htoks
    unfold rdSegment
    simp only [List.append_assoc]
    rw [rdI32_i32T]
    simp only [Option.pure_def, Option.bind_eq_bind, Option.some_bind]
    rw [rdI32_i32T]
    simp only [Option.some_bind]
    rw [rdI32_i32T]
    simp only [Option.some_bind]
    rw [rdI32_i32T]
    simp only [Option.some_bind]
    rw [rdU32_u32T _ _ hlen]
    simp only [Option.some_bind]
    exact rdFeatures_enc baseLon baseLat feats body r hm

/-- The successor-step equation of `rdSegments`. -/
theorem rdSegments_succ (b1 b2 : ℚ) (n : ℕ) (s : List Tok) :
    rdSegments b1 b2 (n + 1) s = do
      let (fs, s) ← rdSegment b1 b2 s
      let (rest, s) ← rdSegments b1 b2 n s
      return (fs ++ rest, s) := rfl

/-- Segment list round trip. -/
theorem rdSegments_enc (baseLon baseLat : ℚ) :
    ∀ (segs : List ((ℤ × ℤ) × List LineFeature)) (bodies : List (List Tok)) (r : List Tok),
      mapME (fun sg => encodeSegmentTok baseLon baseLat sg.2) segs = .ok bodies →
      (∀ sg ∈ segs, sg.2.length < 4294967296) →
      rdSegments baseLon baseLat segs.length (bodies.flatten ++ r) =
        some (segs.flatMap fun sg => sg.2.map (decFeature baseLon baseLat), r) := by
  intro segs
  induction segs with
  | nil =>
    intro bodies r h _
    cases (Except.ok.inj h)
    rfl
  | cons sg segs ih =>
    intro bodies r h hall
    rcases mapME_ok_cons _ sg segs bodies h with ⟨toks, rest, henc, hm, rfl⟩
    simp only [List.flatten_cons, List.length_cons, List.flatMap_cons, List.append_assoc]
    rw [rdSegments_succ]
    rw [rdSegment_enc baseLon baseLat sg.2 toks _
      (hall sg (List.mem_cons_self sg segs)) henc]
    simp only [Option.pure_def, Option.bind_eq_bind, Option.some_bind]
    rw [ih rest r hm (fun x hx => hall x (List.mem_cons_of_mem sg hx))]
    simp only [Option.some_bind]

/-- Membership in `intRange` is the two-sided bound. -/
theorem mem_intRange (lo hi z : ℤ) : z ∈ intRange lo hi ↔ lo ≤ z ∧ z ≤ hi := by
  unfold intRange
  simp only [List.mem_map, List.mem_range]
  constructor
  · rintro ⟨k, hk, rfl⟩
    omega
  · intro hz
    exact ⟨(z - lo).toNat, by omega, by omega⟩


/-- The bucket of any feature is one of the 8×4 grid keys. -/
theorem cellOfFeature_mem_segKeys (a b c d : ℚ) (f : LineFeature) :
    cellOfFeature a b c d f ∈ segKeys := by
  unfold cellOfFeature segKeys
  dsimp only
  refine List.mem_flatMap.mpr ⟨_, ?_, List.mem_map.mpr ⟨_, ?_, rfl⟩⟩
  · rw [mem_intRange]
    split_ifs <;> omega
  · rw [mem_intRange]
    split_ifs <;> omega

/-- Membership in the surviving feature list. -/
theorem mem_featuresForSeg (features : List LineFeature) (f : LineFeature) :
    f ∈ featuresForSeg features ↔ f ∈ features ∧ f.coords ≠ [] := by
  unfold featuresForSeg
  rw [List.mem_filter]
  constructor
  · rintro ⟨h1, h2⟩
    refine ⟨h1, ?_⟩
    intro hnil
    rw [hnil] at h2
    exact absurd h2 (by decide)
  · rintro ⟨h1, h2⟩
    refine ⟨h1, ?_⟩
    rw [Bool.not_eq_true', List.isEmpty_eq_false]
    exact h2

/-- Every segment's member list is the bucket filter, and non-empty. -/
theorem mem_segmentsOf (features : List LineFeature) (sg : (ℤ × ℤ) × List LineFeature)
    (h : sg ∈ segmentsOf features) :
    sg.2 = (featuresForSeg features).filter (fun f =>
      decide (cellOfFeature (globalMinLonOf features) (globalMaxLonOf features)
        (globalMinLatOf features) (globalMaxLatOf features) f = sg.1)) ∧ sg.2 ≠ [] := by
  unfold segmentsOf at h
  dsimp only at h
  rcases List.mem_filterMap.mp h with ⟨key, _, hfn⟩
  split_ifs at hfn with he
  cases (Option.some_inj.mp hfn)
  refine ⟨rfl, ?_⟩
  exact List.isEmpty_eq_false.mp (Bool.eq_false_iff.mpr he)

/-- Every surviving feature lands in some emitted segment. -/
theorem mem_segmentsOf_of_mem (features : List LineFeature) (f : LineFeature)
    (hf : f ∈ featuresForSeg features) :
    ∃ sg ∈ segmentsOf features, f ∈ sg.2 := by
  unfold segmentsOf
  dsimp only
  have hmemfilter : f ∈ (featuresForSeg features).filter (fun g =>
      decide (cellOfFeature (globalMinLonOf features) (globalMaxLonOf features)
        (globalMinLatOf features) (globalMaxLatOf features) g =
        cellOfFeature (globalMinLonOf features) (globalMaxLonOf features)
          (globalMinLatOf features) (globalMaxLatOf features) f)) :=
    List.mem_filter.mpr ⟨hf, by simp⟩
  refine ⟨(cellOfFeature (globalMinLonOf features) (globalMaxLonOf features)
      (globalMinLatOf features) (globalMaxLatOf features) f,
    (featuresForSeg features).filter (fun g =>
      decide (cellOfFeature (globalMinLonOf features) (globalMaxLonOf features)
        (globalMinLatOf features) (globalMaxLatOf features) g =
        cellOfFeature (globalMinLonOf features) (globalMaxLonOf features)
          (globalMinLatOf features) (globalMaxLatOf features) f))), ?_, hmemfilter⟩
  refine List.mem_filterMap.mpr ⟨cellOfFeature (globalMinLonOf features)
    (globalMaxLonOf features) (globalMinLatOf features) (globalMaxLatOf features) f,
    cellOfFeature_mem_segKeys _ _ _ _ f, ?_⟩
  rw [if_neg]
  rw [Bool.not_eq_true, List.isEmpty_eq_false]
  exact List.ne_nil_of_mem hmemfilter

/-- At most 32 segments are ever emitted. -/
theorem segmentsOf_length_le (features : List LineFeature) :
    (segmentsOf features).length ≤ 32 := by
  unfold segmentsOf
  dsimp only
  exact le_trans (List.length_filterMap_le _ _) (by decide)

/-- A segment never holds more features than the input. -/
theorem seg_feats_length_le (features : List LineFeature) (sg : (ℤ × ℤ) × List LineFeature)
    (h : sg ∈ segmentsOf features) : sg.2.length ≤ features.length := by
  rcases mem_segmentsOf features sg h with ⟨heq, _⟩
  rw [heq]
  refine le_trans (List.length_filter_le _ _) ?_
  unfold featuresForSeg
  exact List.length_filter_le _ _

/-- Full-stream decode of a successful encode: the decoder returns the
`decFeature` images of the bucketed features, in segment order. -/
theorem decode_enc (features : List LineFeature) (s : List Tok)
    (hcnt : features.length < 4294967296)
    (henc : encodeFeatures features = .ok s) :
    decodeFeaturesBin s =
      some ((segmentsOf features).flatMap fun sg =>
        sg.2.map (decFeature (globalMinLonOf features) (globalMinLatOf features))) := by
  unfold encodeFeatures at henc
  split_ifs at henc with h1
  dsimp only at henc
  cases hm : mapME (fun sg => encodeSegmentTok (globalMinLonOf features)
      (globalMinLatOf features) sg.2) (segmentsOf features) with
  | error e => rw [hm] at henc; exact absurd henc (by simp [Bind.bind, Except.bind])
  | ok bodies =>
    rw [hm] at henc
    have hs := (Except.ok.inj henc).symm
    subst hs
    unfold decodeFeaturesBin
    simp only [List.append_assoc]
    rw [rdU32_u32T _ _ (by have := segmentsOf_length_le features; omega)]
    simp only [Option.pure_def, Option.bind_eq_bind, Option.some_bind]
    rw [rdF64_f64T]
    simp only [Option.some_bind]
    rw [rdF64_f64T]
    simp only [Option.some_bind]
    have hall : ∀ sg ∈ segmentsOf features, sg.2.length < 4294967296 := fun sg hsg =>
      lt_of_le_of_lt (seg_feats_length_le features sg hsg) hcnt
    have hrd := rdSegments_enc (globalMinLonOf features) (globalMinLatOf features)
      (segmentsOf features) bodies [] hm hall
    rw [List.append_nil] at hrd
    rw [hrd]
    simp only [Option.some_bind]

/-- C7 (counterexample): a non-empty feature list whose only feature
has an empty coordinate list encodes successfully, but the decoded
stream is empty — the feature's title, priority and source tag are not
reproduced. -/
theorem encode_decode_drops_empty_coords_feature :
    (encodeFeatures fsEmptyCoords).toOption.isSome = true ∧
    (encodeFeatures fsEmptyCoords).toOption.bind decodeFeaturesBin = some [] :=
  ⟨by decide, by decide⟩

/-- C7 (amended): for a successful encode, with fewer than 2³² features
and all scaled deltas in int32 range, decoding reproduces every
feature that has a non-empty coordinate list: title bytes, priority
and source tag exactly, and each coordinate within 1e-6 degrees. -/
theorem encode_decode_roundtrip (features : List LineFeature)
    (hok : (encodeFeatures features).toOption.isSome = true)
    (hcnt : features.length < 4294967296)
    (hrange : ∀ f ∈ features, ∀ c ∈ f.coords,
      -2147483648 ≤ coordDelta (globalMinLonOf features) c.lon ∧
      coordDelta (globalMinLonOf features) c.lon ≤ 2147483647 ∧
      -2147483648 ≤ coordDelta (globalMinLatOf features) c.lat ∧
      coordDelta (globalMinLatOf features) c.lat ≤ 2147483647) :
    ∃ ds, (encodeFeatures features).toOption.bind decodeFeaturesBin = some ds ∧
      ∀ f ∈ features, f.coords ≠ [] →
        ∃ df ∈ ds,
          df.titleBytes = utf8Bytes f.title ∧
          df.priority = f.priority.val ∧
          df.sourceDataset = f.sourceDataset.val ∧
          df.coords.length = f.coords.length ∧
          ∀ i, i < f.coords.length →
            absQ ((df.coords.getD i default).lon - (f.coords.getD i default).lon) ≤
              1 / 1000000 ∧
            absQ ((df.coords.getD i default).lat - (f.coords.getD i default).lat) ≤
              1 / 1000000 := by
  cases henc : encodeFeatures features with
  | error e => rw [henc] at hok; exact absurd hok (by simp [Except.toOption])
  | ok s =>
    refine ⟨(segmentsOf features).flatMap fun sg =>
      sg.2.map (decFeature (globalMinLonOf features) (globalMinLatOf features)), ?_, ?_⟩
    · show (Except.ok s).toOption.bind decodeFeaturesBin = _
      simp only [Except.toOption, Option.some_bind]
      exact decode_enc features s hcnt henc
    · intro f hf hlne
      have hfs : f ∈ featuresForSeg features := (mem_featuresForSeg features f).mpr ⟨hf, hlne⟩
      rcases mem_segmentsOf_of_mem features f hfs with ⟨sg, hsg, hfin⟩
      refine ⟨decFeature (globalMinLonOf features) (globalMinLatOf features) f,
        List.mem_flatMap.mpr ⟨sg, hsg, List.mem_map.mpr ⟨f, hfin, rfl⟩⟩,
        rfl, rfl, rfl, by simp [decFeature], ?_⟩
      intro i hi
      have hilt : i < (f.coords.map (decCoord (globalMinLonOf features)
          (globalMinLatOf features))).length := by
        rw [List.length_map]; exact hi
      have hdf : (decFeature (globalMinLonOf features) (globalMinLatOf features) f).coords =
          f.coords.map (decCoord (globalMinLonOf features) (globalMinLatOf features)) := rfl
      rw [hdf, List.getD_eq_getElem _ _ hilt, List.getElem_map,
        List.getD_eq_getElem _ _ hi]
      have hmem : f.coords[i] ∈ f.coords := List.getElem_mem hi
      rcases hrange f hf _ hmem with ⟨r1, r2, r3, r4⟩
      constructor
      · show absQ ((decCoord _ _ _).lon - _) ≤ _
        unfold decCoord
        dsimp only
        rw [wrap32_eq_self r1 r2]
        exact coord_acc _ _
      · show absQ ((decCoord _ _ _).lat - _) ≤ _
        unfold decCoord
        dsimp only
        rw [wrap32_eq_self r3 r4]
        exact coord_acc _ _

/-- C7 (amended) witness. -/
theorem encode_decode_roundtrip_witness :
    ∃ ds, (encodeFeatures fsRT).toOption.bind decodeFeaturesBin = some ds ∧
      ∀ f ∈ fsRT, f.coords ≠ [] →
        ∃ df ∈ ds,
          df.titleBytes = utf8Bytes f.title ∧
          df.priority = f.priority.val ∧
          df.sourceDataset = f.sourceDataset.val ∧
          df.coords.length = f.coords.length ∧
          ∀ i, i < f.coords.length →
            absQ ((df.coords.getD i default).lon - (f.coords.getD i default).lon) ≤
              1 / 1000000 ∧
            absQ ((df.coords.getD i default).lat - (f.coords.getD i default).lat) ≤
              1 / 1000000 :=
  encode_decode_roundtrip fsRT (by decide) (by decide) (by decide)

/-- `mapME` fails exactly when some element fails. -/
theorem mapME_error_iff {α β : Type} (g : α → Except String β) :
    ∀ l : List α, (∃ e, mapME g l = .error e) ↔ ∃ x ∈ l, ∃ e, g x = .error e := by
  intro l
  induction l with
  | nil =>
    constructor
    · rintro ⟨e, he⟩; exact absurd he (by simp [mapME])
    · rintro ⟨x, hx, _⟩; exact absurd hx (List.not_mem_nil x)
  | cons x xs ih =>
    constructor
    · rintro ⟨e, he⟩
      rw [mapME_cons] at he
      cases hgx : g x with
      | error e1 => exact ⟨x, List.mem_cons_self x xs, e1, hgx⟩
      | ok y =>
        rw [hgx] at he
        cases hm : mapME g xs with
        | error e2 =>
          rcases ih.mp ⟨e2, hm⟩ with ⟨z, hz, e3, hz3⟩
          exact ⟨z, List.mem_cons_of_mem x hz, e3, hz3⟩
        | ok ys => rw [hm] at he; exact absurd he (by simp [Bind.bind, Except.bind, Pure.pure, Except.pure])
    · rintro ⟨z, hz, e, hze⟩
      rcases List.mem_cons.mp hz with rfl | hmem
      · exact ⟨e, by rw [mapME_cons, hze]; rfl⟩
      · cases hgx : g x with
        | error e1 => exact ⟨e1, by rw [mapME_cons, hgx]; rfl⟩
        | ok y =>
          rcases ih.mpr ⟨z, hmem, e, hze⟩ with ⟨e2, hm⟩
          exact ⟨e2, by rw [mapME_cons, hgx, hm]; rfl⟩

/-- The per-feature capacity checks, as an error characterization. -/
theorem encodeFeatureTok_error_iff (b1 b2 : ℚ) (f : LineFeature) :
    (∃ e, encodeFeatureTok b1 b2 f = .error e) ↔
    ((utf8Bytes f.title).length > 255 ∨ f.coords.length > 65535) := by
  unfold encodeFeatureTok
  dsimp only
  split_ifs with h1 h2
  · exact ⟨fun _ => Or.inl h1, fun _ => ⟨_, rfl⟩⟩
  · exact ⟨fun _ => Or.inr h2, fun _ => ⟨_, rfl⟩⟩
  · constructor
    · rintro ⟨e, he⟩; exact absurd he (by simp)
    · rintro (h | h)
      · exact absurd h h1
      · exact absurd h h2

/-- A segment encode fails exactly when some member feature fails. -/
theorem encodeSegmentTok_error_iff (b1 b2 : ℚ) (feats : List LineFeature) :
    (∃ e, encodeSegmentTok b1 b2 feats = .error e) ↔
    ∃ f ∈ feats, ∃ e, encodeFeatureTok b1 b2 f = .error e := by
  unfold encodeSegmentTok
  constructor
  · rintro ⟨e, he⟩
    cases hm : mapME (encodeFeatureTok b1 b2) feats with
    | error e2 => exact (mapME_error_iff _ feats).mp ⟨e2, hm⟩
    | ok body => rw [hm] at he; exact absurd he (by simp [Bind.bind, Except.bind, Pure.pure, Except.pure])
  · intro h
    rcases (mapME_error_iff _ feats).mpr h with ⟨e, hm⟩
    exact ⟨e, by rw [hm]; rfl⟩

/-- Feature membership transported out of a segment. -/
theorem mem_features_of_mem_seg (features : List LineFeature)
    (sg : (ℤ × ℤ) × List LineFeature) (f : LineFeature)
    (hsg : sg ∈ segmentsOf features) (hf : f ∈ sg.2) :
    f ∈ features ∧ f.coords ≠ [] := by
  rcases mem_segmentsOf features sg hsg with ⟨heq, _⟩
  rw [heq] at hf
  exact (mem_featuresForSeg features f).mp (List.mem_filter.mp hf).1

/-- C9: `encodeFeatures` fails exactly on an empty input, or on a
feature with a non-empty coordinate list whose title exceeds 255 UTF-8
bytes or whose coordinate count exceeds 65535; features with empty
coordinate lists are never checked. -/
theorem encodeFeatures_error_iff (features : List LineFeature) :
    (∃ e, encodeFeatures features = .error e) ↔
    (features = [] ∨ ∃ f ∈ features, f.coords ≠ [] ∧
      ((utf8Bytes f.title).length > 255 ∨ f.coords.length > 65535)) := by
  unfold encodeFeatures
  split_ifs with h1
  · rw [List.isEmpty_iff] at h1
    exact ⟨fun _ => Or.inl h1, fun _ => ⟨_, rfl⟩⟩
  · dsimp only
    constructor
    · rintro ⟨e, he⟩
      right
      cases hm : mapME (fun sg => encodeSegmentTok (globalMinLonOf features)
          (globalMinLatOf features) sg.2) (segmentsOf features) with
      | ok bodies => rw [hm] at he; exact absurd he (by simp [Bind.bind, Except.bind, Pure.pure, Except.pure])
      | error e2 =>
        rcases (mapME_error_iff _ _).mp ⟨e2, hm⟩ with ⟨sg, hsg, e3, hsge⟩
        rcases (encodeSegmentTok_error_iff _ _ sg.2).mp ⟨e3, hsge⟩ with ⟨f, hfseg, e4, hfe⟩
        rcases mem_features_of_mem_seg features sg f hsg hfseg with ⟨hf, hlne⟩
        exact ⟨f, hf, hlne, (encodeFeatureTok_error_iff _ _ f).mp ⟨e4, hfe⟩⟩
    · intro h
      rcases h with h | ⟨f, hf, hlne, hbad⟩
      · exact absurd (by rw [h]; rfl : features.isEmpty = true) h1
      · have hffs := (mem_featuresForSeg features f).mpr ⟨hf, hlne⟩
        rcases mem_segmentsOf_of_mem features f hffs with ⟨sg, hsg, hfin⟩
        rcases (encodeSegmentTok_error_iff (globalMinLonOf features)
            (globalMinLatOf features) sg.2).mpr
          ⟨f, hfin, (encodeFeatureTok_error_iff _ _ f).mpr hbad⟩ with ⟨e, hsege⟩
        rcases (mapME_error_iff (fun sg => encodeSegmentTok (globalMinLonOf features)
            (globalMinLatOf features) sg.2) (segmentsOf features)).mpr
          ⟨sg, hsg, e, hsege⟩ with ⟨e2, hm⟩
        exact ⟨e2, by rw [hm]; rfl⟩

/-- C9 (counterexample): a title longer than 255 bytes does not make
the encode fail when the feature's coordinate list is empty. -/
theorem encodeFeatures_long_title_empty_coords_ok :
    (utf8Bytes longTitle).length > 255 ∧
    (encodeFeatures fsLongTitleEmpty).toOption.isSome = true :=
  ⟨by decide, by decide⟩

/-- The coordinate min-fold never increases its accumulator. -/
theorem coordfold_min_le_init (π : GeoPoint → ℚ) :
    ∀ (cs : List GeoPoint) (init : ℚ),
      cs.foldl (fun a c => if π c < a then π c else a) init ≤ init := by
  intro cs
  induction cs with
  | nil => intro init; exact le_refl _
  | cons x xs ih =>
    intro init
    simp only [List.foldl_cons]
    refine le_trans (ih _) ?_
    split_ifs with h
    · exact le_of_lt h
    · exact le_refl _

/-- The coordinate min-fold is bounded by every member it scans. -/
theorem coordfold_min_le_mem (π : GeoPoint → ℚ) :
    ∀ (cs : List GeoPoint) (init : ℚ) (c : GeoPoint), c ∈ cs →
      cs.foldl (fun a c => if π c < a then π c else a) init ≤ π c := by
  intro cs
  induction cs with
  | nil => intro init c hc; exact absurd hc (List.not_mem_nil c)
  | cons x xs ih =>
    intro init c hc
    simp only [List.foldl_cons]
    rcases List.mem_cons.mp hc with rfl | hmem
    · refine le_trans (coordfold_min_le_init π xs _) ?_
      split_ifs with h
      · exact le_refl _
      · exact not_lt.mp h
    · exact ih _ c hmem

/-- Attainment for the coordinate min-fold. -/
theorem coordfold_min_attain (π : GeoPoint → ℚ) :
    ∀ (cs : List GeoPoint) (init : ℚ),
      cs.foldl (fun a c => if π c < a then π c else a) init = init ∨
      ∃ c ∈ cs, cs.foldl (fun a c => if π c < a then π c else a) init = π c := by
  intro cs
  induction cs with
  | nil => intro init; exact Or.inl rfl
  | cons x xs ih =>
    intro init
    simp only [List.foldl_cons]
    rcases ih (if π x < init then π x else init) with h | ⟨c, hc, h⟩
    · rw [h]
      split_ifs with hx
      · exact Or.inr ⟨x, List.mem_cons_self x xs, rfl⟩
      · exact Or.inl rfl
    · exact Or.inr ⟨c, List.mem_cons_of_mem x hc, h⟩

/-- The feature-level min-fold never increases its accumulator. -/
theorem featfold_min_le_init (π : GeoPoint → ℚ) :
    ∀ (feats : List LineFeature) (init : ℚ),
      feats.foldl (fun acc f => f.coords.foldl (fun a c => if π c < a then π c else a) acc)
        init ≤ init := by
  intro feats
  induction feats with
  | nil => intro init; exact le_refl _
  | cons f fs ih =>
    intro init
    simp only [List.foldl_cons]
    exact le_trans (ih _) (coordfold_min_le_init π f.coords init)

/-- The feature-level min-fold is bounded by every scanned coordinate. -/
theorem featfold_min_le_mem (π : GeoPoint → ℚ) :
    ∀ (feats : List LineFeature) (init : ℚ) (f : LineFeature) (c : GeoPoint),
      f ∈ feats → c ∈ f.coords →
      feats.foldl (fun acc f => f.coords.foldl (fun a c => if π c < a then π c else a) acc)
        init ≤ π c := by
  intro feats
  induction feats with
  | nil => intro init f c hf; exact absurd hf (List.not_mem_nil f)
  | cons g gs ih =>
    intro init f c hf hc
    simp only [List.foldl_cons]
    rcases List.mem_cons.mp hf with rfl | hmem
    · exact le_trans (featfold_min_le_init π gs _) (coordfold_min_le_mem π f.coords init c hc)
    · exact ih _ f c hmem hc

/-- Attainment for the feature-level min-fold. -/
theorem featfold_min_attain (π : GeoPoint → ℚ) :
    ∀ (feats : List LineFeature) (init : ℚ),
      feats.foldl (fun acc f => f.coords.foldl (fun a c => if π c < a then π c else a) acc)
        init = init ∨
      ∃ f ∈ feats, ∃ c ∈ f.coords,
        feats.foldl (fun acc f => f.coords.foldl (fun a c => if π c < a then π c else a) acc)
          init = π c := by
  intro feats
  induction feats with
  | nil => intro init; exact Or.inl rfl
  | cons g gs ih =>
    intro init
    simp only [List.foldl_cons]
    rcases ih (g.coords.foldl (fun a c => if π c < a then π c else a) init) with h | ⟨f, hf, c, hc, h⟩
    · rw [h]
      rcases coordfold_min_attain π g.coords init with h2 | ⟨c, hc, h2⟩
      · rw [h2]; exact Or.inl rfl
      · exact Or.inr ⟨g, List.mem_cons_self g gs, c, hc, h2⟩
    · exact Or.inr ⟨f, List.mem_cons_of_mem g hf, c, hc, h⟩

/-- The coordinate max-fold never decreases its accumulator. -/
theorem coordfold_max_ge_init (π : GeoPoint → ℚ) :
    ∀ (cs : List GeoPoint) (init : ℚ),
      init ≤ cs.foldl (fun a c => if a < π c then π c else a) init := by
  intro cs
  induction cs with
  | nil => intro init; exact le_refl _
  | cons x xs ih =>
    intro init
    simp only [List.foldl_cons]
    refine le_trans ?_ (ih _)
    split_ifs with h
    · exact le_of_lt h
    · exact le_refl _

/-- The coordinate max-fold dominates every member it scans. -/
theorem coordfold_max_ge_mem (π : GeoPoint → ℚ) :
    ∀ (cs : List GeoPoint) (init : ℚ) (c : GeoPoint), c ∈ cs →
      π c ≤ cs.foldl (fun a c => if a < π c then π c else a) init := by
  intro cs
  induction cs with
  | nil => intro init c hc; exact absurd hc (List.not_mem_nil c)
  | cons x xs ih =>
    intro init c hc
    simp only [List.foldl_cons]
    rcases List.mem_cons.mp hc with rfl | hmem
    · refine le_trans ?_ (coordfold_max_ge_init π xs _)
      split_ifs with h
      · exact le_refl _
      · exact not_lt.mp h
    · exact ih _ c hmem

/-- Attainment for the coordinate max-fold. -/
theorem coordfold_max_attain (π : GeoPoint → ℚ) :
    ∀ (cs : List GeoPoint) (init : ℚ),
      cs.foldl (fun a c => if a < π c then π c else a) init = init ∨
      ∃ c ∈ cs, cs.foldl (fun a c => if a < π c then π c else a) init = π c := by
  intro cs
  induction cs with
  | nil => intro init; exact Or.inl rfl
  | cons x xs ih =>
    intro init
    simp only [List.foldl_cons]
    rcases ih (if init < π x then π x else init) with h | ⟨c, hc, h⟩
    · rw [h]
      split_ifs with hx
      · exact Or.inr ⟨x, List.mem_cons_self x xs, rfl⟩
      · exact Or.inl rfl
    · exact Or.inr ⟨c, List.mem_cons_of_mem x hc, h⟩

/-- The feature-level max-fold never decreases its accumulator. -/
theorem featfold_max_ge_init (π : GeoPoint → ℚ) :
    ∀ (feats : List LineFeature) (init : ℚ),
      init ≤ feats.foldl (fun acc f => f.coords.foldl (fun a c => if a < π c then π c else a)
        acc) init := by
  intro feats
  induction feats with
  | nil => intro init; exact le_refl _
  | cons f fs ih =>
    intro init
    simp only [List.foldl_cons]
    exact le_trans (coordfold_max_ge_init π f.coords init) (ih _)

/-- The feature-level max-fold dominates every scanned coordinate. -/
theorem featfold_max_ge_mem (π : GeoPoint → ℚ) :
    ∀ (feats : List LineFeature) (init : ℚ) (f : LineFeature) (c : GeoPoint),
      f ∈ feats → c ∈ f.coords →
      π c ≤ feats.foldl (fun acc f => f.coords.foldl (fun a c => if a < π c then π c else a)
        acc) init := by
  intro feats
  induction feats with
  | nil => intro init f c hf; exact absurd hf (List.not_mem_nil f)
  | cons g gs ih =>
    intro init f c hf hc
    simp only [List.foldl_cons]
    rcases List.mem_cons.mp hf with rfl | hmem
    · exact le_trans (coordfold_max_ge_mem π f.coords init c hc) (featfold_max_ge_init π gs _)
    · exact ih _ f c hmem hc

/-- Attainment for the feature-level max-fold. -/
theorem featfold_max_attain (π : GeoPoint → ℚ) :
    ∀ (feats : List LineFeature) (init : ℚ),
      feats.foldl (fun acc f => f.coords.foldl (fun a c => if a < π c then π c else a) acc)
        init = init ∨
      ∃ f ∈ feats, ∃ c ∈ f.coords,
        feats.foldl (fun acc f => f.coords.foldl (fun a c => if a < π c then π c else a) acc)
          init = π c := by
  intro feats
  induction feats with
  | nil => intro init; exact Or.inl rfl
  | cons g gs ih =>
    intro init
    simp only [List.foldl_cons]
    rcases ih (g.coords.foldl (fun a c => if a < π c then π c else a) init) with h | ⟨f, hf, c, hc, h⟩
    · rw [h]
      rcases coordfold_max_attain π g.coords init with h2 | ⟨c, hc, h2⟩
      · rw [h2]; exact Or.inl rfl
      · exact Or.inr ⟨g, List.mem_cons_self g gs, c, hc, h2⟩
    · exact Or.inr ⟨f, List.mem_cons_of_mem g hf, c, hc, h⟩

/-- A rational is below its absolute value. -/
theorem le_absQ (q : ℚ) : q ≤ absQ q := by
  unfold absQ
  split_ifs with h <;> linarith

/-- A rational is above minus its absolute value. -/
theorem neg_absQ_le (q : ℚ) : -absQ q ≤ q := by
  unfold absQ
  split_ifs with h <;> linarith

/-- The scaled delta is monotone in the coordinate. -/
theorem coordDelta_mono (base : ℚ) {v w : ℚ} (h : v ≤ w) :
    coordDelta base v ≤ coordDelta base w := by
  unfold coordDelta
  exact roundGo_mono (by linarith)

/-- One axis of the serialized segment box is non-degenerate, provided
every coordinate is finite and its delta is in int32 range. -/
theorem seg_box_axis (features : List LineFeature) (sg : (ℤ × ℤ) × List LineFeature)
    (hsg : sg ∈ segmentsOf features) (π : GeoPoint → ℚ) (base : ℚ)
    (hfin : ∀ f ∈ features, ∀ c ∈ f.coords, absQ (π c) < maxFloatQ)
    (hrange : ∀ f ∈ features, ∀ c ∈ f.coords,
      -2147483648 ≤ coordDelta base (π c) ∧ coordDelta base (π c) ≤ 2147483647) :
    wrap32 (coordDelta base (sg.2.foldl
        (fun acc f => f.coords.foldl (fun a c => if π c < a then π c else a) acc)
        maxFloatQ)) ≤
    wrap32 (coordDelta base (sg.2.foldl
        (fun acc f => f.coords.foldl (fun a c => if a < π c then π c else a) acc)
        (-maxFloatQ))) := by
  rcases mem_segmentsOf features sg hsg with ⟨_, hne⟩
  rcases List.exists_mem_of_ne_nil sg.2 hne with ⟨f0, hf0⟩
  rcases mem_features_of_mem_seg features sg f0 hsg hf0 with ⟨hf0F, hf0c⟩
  rcases List.exists_mem_of_ne_nil f0.coords hf0c with ⟨c0, hc0⟩
  have hfin0 := hfin f0 hf0F c0 hc0
  rcases featfold_min_attain π sg.2 maxFloatQ with hmin | ⟨fm, hfm, cm, hcm, hmin⟩
  · exfalso
    have hle := featfold_min_le_mem π sg.2 maxFloatQ f0 c0 hf0 hc0
    have := le_absQ (π c0)
    linarith [hmin ▸ hle]
  rcases featfold_max_attain π sg.2 (-maxFloatQ) with hmax | ⟨fM, hfM, cM, hcM, hmax⟩
  · exfalso
    have hge := featfold_max_ge_mem π sg.2 (-maxFloatQ) f0 c0 hf0 hc0
    have := neg_absQ_le (π c0)
    linarith [hmax ▸ hge]
  have hminle := featfold_min_le_mem π sg.2 maxFloatQ fM cM hfM hcM
  rw [hmin] at hminle
  rw [hmin, hmax]
  rcases mem_features_of_mem_seg features sg fm hsg hfm with ⟨hfmF, _⟩
  rcases mem_features_of_mem_seg features sg fM hsg hfM with ⟨hfMF, _⟩
  rcases hrange fm hfmF cm hcm with ⟨a1, a2⟩
  rcases hrange fM hfMF cM hcM with ⟨b1, b2⟩
  rw [wrap32_eq_self a1 a2, wrap32_eq_self b1 b2]
  exact coordDelta_mono base hminle

/-- C8 (counterexample): a coordinate whose 1e6-scaled delta exceeds
the int32 range does not make the encode fail — there is no overflow
check. -/
theorem encodeFeatures_no_overflow_error :
    (encodeFeatures fsBig).toOption.isSome = true ∧
    2147483647 < coordDelta (globalMinLonOf fsBig)
      ((fsBig.getD 0 default).coords.getD 1 default).lon :=
  ⟨by decide, by decide⟩

/-- C8 (amended): under finite coordinates with in-range deltas, every
emitted segment's serialized bounding box is non-degenerate —
min ≤ max on both axes (as int32 values, i.e. after the wrap of the
serialization). -/
theorem encode_segment_boxes_nondegenerate (features : List LineFeature)
    (sg : (ℤ × ℤ) × List LineFeature) (hsg : sg ∈ segmentsOf features)
    (hfin : ∀ f ∈ features, ∀ c ∈ f.coords,
      absQ c.lon < maxFloatQ ∧ absQ c.lat < maxFloatQ)
    (hrange : ∀ f ∈ features, ∀ c ∈ f.coords,
      -2147483648 ≤ coordDelta (globalMinLonOf features) c.lon ∧
      coordDelta (globalMinLonOf features) c.lon ≤ 2147483647 ∧
      -2147483648 ≤ coordDelta (globalMinLatOf features) c.lat ∧
      coordDelta (globalMinLatOf features) c.lat ≤ 2147483647) :
    wrap32 (coordDelta (globalMinLonOf features) (segMinLonOf sg.2)) ≤
      wrap32 (coordDelta (globalMinLonOf features) (segMaxLonOf sg.2)) ∧
    wrap32 (coordDelta (globalMinLatOf features) (segMinLatOf sg.2)) ≤
      wrap32 (coordDelta (globalMinLatOf features) (segMaxLatOf sg.2)) := by
  constructor
  · exact seg_box_axis features sg hsg (fun c => c.lon) (globalMinLonOf features)
      (fun f hf c hc => (hfin f hf c hc).1)
      (fun f hf c hc => ⟨(hrange f hf c hc).1, (hrange f hf c hc).2.1⟩)
  · exact seg_box_axis features sg hsg (fun c => c.lat) (globalMinLatOf features)
      (fun f hf c hc => (hfin f hf c hc).2)
      (fun f hf c hc => ⟨(hrange f hf c hc).2.2.1, (hrange f hf c hc).2.2.2⟩)

/-- C8 (amended) witness. -/
theorem encode_segment_boxes_nondegenerate_witness :
    wrap32 (coordDelta (globalMinLonOf fsRT)
        (segMinLonOf ((segmentsOf fsRT).getD 0 default).2)) ≤
      wrap32 (coordDelta (globalMinLonOf fsRT)
        (segMaxLonOf ((segmentsOf fsRT).getD 0 default).2)) ∧
    wrap32 (coordDelta (globalMinLatOf fsRT)
        (segMinLatOf ((segmentsOf fsRT).getD 0 default).2)) ≤
      wrap32 (coordDelta (globalMinLatOf fsRT)
        (segMaxLatOf ((segmentsOf fsRT).getD 0 default).2)) :=
  encode_segment_boxes_nondegenerate fsRT ((segmentsOf fsRT).getD 0 default)
    (by decide) (by decide) (by decide)
